import Mathlib

/-!
A shallow embedding of `src/wxcli.go`, the wxcli weather client.

The program is a thin command-line wrapper: argument dispatch (`main`), an
interactive writer of the credential file (`setup`), one outbound request
(`getWeather`) and two renderers (`weatherToday`, `weatherDaily`).

Everything the Go code does to the outside is made explicit in a `World`
value that is passed through the embedded functions: standard input and
output, the diagnostics of the `log` package, the `.env` file, the process
environment and an ordered trace of file and network operations.  What the
outside answers (I/O failures, the HTTP reply, the local time zone, the JSON
decoder) is collected in a `Sys` value the functions are parameterised by.

Go strings are taken to be valid UTF-8 and are modelled by Lean strings,
that is, sequences of Unicode code points.  The second source file,
`src/wcli.go`, is an earlier variant of the request driven by flags; nothing
stated below is about it.
-/

namespace Wxcli

/-! ## Numbers and their rendering -/

/-- A finite IEEE-754 binary64 value `(-1)^neg * mant * 2^exp`.  The only
`float64` values the program ever prints come out of `json.Unmarshal`, which
yields finite values, so no NaN or infinity is represented.  The default is
Go's zero value. -/
structure Float64 where
  neg : Bool := false
  mant : Nat := 0
  exp : Int := 0
deriving DecidableEq

/-- Decimal digit of a number below ten. -/
def digitChar (n : Nat) : Char :=
  Char.ofNat (48 + n % 10)

/-- Decimal digits of `n`, most significant first; `fuel` bounds the number
of digits. -/
def natDigits : Nat → Nat → List Char
  | 0, _ => []
  | fuel + 1, n =>
    if n < 10 then [digitChar n] else natDigits fuel (n / 10) ++ [digitChar n]

/-- The verb `%d` on a natural number. -/
def formatNat (n : Nat) : String :=
  ⟨natDigits (n + 1) n⟩

/-- Quotient `n / d` rounded to the nearest integer, ties to even: the
rounding `strconv` applies to the exact decimal expansion of a float. -/
def roundHalfEven (n d : Nat) : Nat :=
  let q := n / d
  let r := n % d
  if 2 * r < d then q
  else if d < 2 * r then q + 1
  else if q % 2 = 0 then q else q + 1

/-- The magnitude of `x` in tenths, correctly rounded. -/
def Float64.tenths (x : Float64) : Nat :=
  match x.exp with
  | Int.ofNat e => x.mant * 2 ^ e * 10
  | Int.negSucc e => roundHalfEven (x.mant * 10) (2 ^ (e + 1))

/-- The verb `%.1f` of package `fmt` on a finite `float64`: sign, integer
part, a point and exactly one fractional digit of the correctly rounded
value. -/
def formatF1 (x : Float64) : String :=
  (if x.neg then "-" else "") ++ formatNat (x.tenths / 10) ++ "." ++ formatNat (x.tenths % 10)

/-! ## Time -/

/-- Names returned by `time.Weekday.String`, indexed from Sunday. -/
def longDayNames : List String :=
  ["Sunday", "Monday", "Tuesday", "Wednesday", "Thursday", "Friday", "Saturday"]

/-- Model of `time.Unix(sec, 0).Weekday()`: the day of the week, counted from Sunday,
of the instant `sec` seconds after the Unix epoch, read in the local time
zone.  `zone sec` is the offset in seconds east of UTC that the local zone
has at that instant.  1 January 1970 was a Thursday.  The function follows the
documented contract of package `time`; `Dt` is an `int`, far from the ends of
the range of `int64` for any instant a forecast can carry. -/
def Weekday (zone : Int → Int) (sec : Int) : Nat :=
  (((sec + zone sec) / 86400 + 4) % 7).toNat

/-- Model of `time.Weekday.String`. -/
def weekdayString (d : Nat) : String :=
  match longDayNames[d]? with
  | some s => s
  | none => "%!Weekday(" ++ formatNat d ++ ")"

/-! ## The response model (`weatherResponse`) -/

/-- One element of the `weather` arrays. -/
structure WeatherDesc where
  ID : Int := 0
  Main : String := ""
  Description : String := ""
  Icon : String := ""
deriving DecidableEq

/-- The `current` block. -/
structure CurrentBlock where
  Dt : Int := 0
  Sunrise : Int := 0
  Sunset : Int := 0
  Temp : Float64 := {}
  FeelsLike : Float64 := {}
  Pressure : Int := 0
  Humidity : Int := 0
  DewPoint : Float64 := {}
  Uvi : Float64 := {}
  Clouds : Int := 0
  Visibility : Int := 0
  WindSpeed : Float64 := {}
  WindDeg : Int := 0
  WindGust : Float64 := {}
  Weather : List WeatherDesc := []
deriving DecidableEq

/-- The `temp` block of a daily entry. -/
structure DailyTemp where
  Day : Float64 := {}
  Min : Float64 := {}
  Max : Float64 := {}
  Night : Float64 := {}
  Eve : Float64 := {}
  Morn : Float64 := {}
deriving DecidableEq

/-- The `feels_like` block of a daily entry. -/
structure DailyFeels where
  Day : Float64 := {}
  Night : Float64 := {}
  Eve : Float64 := {}
  Morn : Float64 := {}
deriving DecidableEq

/-- One element of the `daily` array. -/
structure DailyEntry where
  Dt : Int := 0
  Sunrise : Int := 0
  Sunset : Int := 0
  Moonrise : Int := 0
  Moonset : Int := 0
  MoonPhase : Float64 := {}
  Summary : String := ""
  Temp : DailyTemp := {}
  FeelsLike : DailyFeels := {}
  Pressure : Int := 0
  Humidity : Int := 0
  DewPoint : Float64 := {}
  WindSpeed : Float64 := {}
  WindDeg : Int := 0
  WindGust : Float64 := {}
  Weather : List WeatherDesc := []
  Clouds : Int := 0
  Pop : Float64 := {}
  Rain : Float64 := {}
  Uvi : Float64 := {}
deriving DecidableEq

/-- The decoded response; every field defaults to Go's zero value. -/
structure weatherResponse where
  Lat : Float64 := {}
  Lon : Float64 := {}
  Timezone : String := ""
  TimezoneOffset : Int := 0
  Current : CurrentBlock := {}
  Daily : List DailyEntry := []
deriving DecidableEq

/-! ## The outside world -/

/-- File and network operations, as they appear in the trace. -/
inductive Event where
  | fileCreate (name : String) (opened : Bool)
  | fileWrite (name : String) (data : String)
  | fileClose (name : String)
  | fileLoad (name : String)
  | httpGet (url : String)
  | bodyRead
  | bodyClose
deriving DecidableEq

/-- The state the program acts on. -/
structure World where
  /-- Characters not yet read from standard input. -/
  stdin : List Char := []
  /-- Everything written to standard output so far. -/
  stdout : String := ""
  /-- Messages handed to `log.Fatal*`, without the logger's time stamp. -/
  stderr : List String := []
  /-- Contents of `.env` in the working directory, `none` if there is none. -/
  envFile : Option String := none
  /-- The process environment, first binding of a name wins. -/
  environ : List (String × String) := []
  /-- File and network operations performed so far, oldest first. -/
  trace : List Event := []
deriving DecidableEq

/-- How a piece of the program ends: it returns, the process exits through
`os.Exit` (deferred calls do not run), or a run-time panic unwinds. -/
inductive Outcome (α : Type) where
  | ok (a : α) (w : World)
  | exit (code : Nat) (w : World)
  | panic (msg : String) (w : World)
deriving DecidableEq

/-- The world an outcome leaves behind. -/
def Outcome.world {α : Type} : Outcome α → World
  | .ok _ w => w
  | .exit _ w => w
  | .panic _ w => w

/-- The call `fmt.Print` of an already formatted string. -/
def print (s : String) (w : World) : World :=
  { w with stdout := w.stdout ++ s }

/-- The call `fmt.Println` of one string. -/
def println (s : String) (w : World) : World :=
  print (s ++ "\n") w

/-- The calls `log.Fatal`, `log.Fatalf`, `log.Fatalln`: write the message to standard
error and call `os.Exit(1)`. -/
def logFatal {α : Type} (msg : String) (w : World) : Outcome α :=
  .exit 1 { w with stderr := w.stderr ++ [msg] }

/-- Append an operation to the trace. -/
def record (e : Event) (w : World) : World :=
  { w with trace := w.trace ++ [e] }

/-! ## Text helpers -/

/-- Model of `unicode.IsSpace`: the Latin-1 spaces and the code points with the
property White_Space. -/
def unicodeIsSpace (c : Char) : Bool :=
  let n := c.toNat
  (9 ≤ n && n ≤ 13) || n == 0x20 || n == 0x85 || n == 0xA0 || n == 0x1680
    || (0x2000 ≤ n && n ≤ 0x200A) || n == 0x2028 || n == 0x2029 || n == 0x202F
    || n == 0x205F || n == 0x3000

/-- Model of `strings.TrimSpace` on the characters of a string. -/
def trimSpaceChars (l : List Char) : List Char :=
  (l.dropWhile unicodeIsSpace).rdropWhile unicodeIsSpace

/-- Model of `strings.TrimSpace`. -/
def TrimSpace (s : String) : String :=
  ⟨trimSpaceChars s.data⟩

/-- Model of `bufio.Reader.ReadString(delim)` on the pending input: the text up to and
including the first `delim`, or all of it when the input ends first (the
`io.EOF` that comes with it is ignored by the caller), and what is left. -/
def readString (delim : Char) : List Char → List Char × List Char
  | [] => ([], [])
  | c :: cs =>
    if c = delim then ([c], cs)
    else ((c :: (readString delim cs).1), (readString delim cs).2)

/-- The verb `%-10s`: left aligned in a column of ten characters. -/
def padRight10 (s : String) : String :=
  s ++ ⟨List.replicate (10 - s.length) ' '⟩

/-! ## What the outside answers -/

/-- An HTTP response as far as the program looks at it: what `io.ReadAll`
returns for its body. -/
structure Response where
  body : Except String String

/-- Answers of the operating system, the network and the libraries whose
behaviour is not fixed by the program. -/
structure Sys where
  /-- Offset of the local time zone, seconds east of UTC, at an instant. -/
  zone : Int → Int := fun _ => 0
  /-- Error of `os.Create(".env")`, if it fails. -/
  createErr : Option String := none
  /-- Fate of the `k`-th write to the file: `some (n, err)` when it fails with
  `err` after `n` characters went through. -/
  writeErr : Nat → Option (Nat × String) := fun _ => none
  /-- Error of opening or reading `.env` in `godotenv.Load`, if any. -/
  loadErr : Option String := none
  /-- Result of `http.Get`: a transport error or a response. -/
  httpGet : String → Except String Response := fun _ => .error "no network"
  /-- Result of `json.Unmarshal` into a `weatherResponse`. -/
  decode : String → Except String weatherResponse := fun _ => .error "unexpected end of JSON input"

/-! ## Help -/

/-- The table `commands` of `printHelp`. -/
def commands : List (String × String) :=
  [("setup", "Configure your location and API key"),
   ("current", "Show current weather info"),
   ("help", "Display this help message")]

/-- The loop over `commands` in `printHelp`. -/
def printCommands : List (String × String) → World → World
  | [], w => w
  | cmd :: rest, w =>
    printCommands rest (print ("  " ++ padRight10 cmd.1 ++ " " ++ cmd.2 ++ "\n") w)

/-- Body of `printHelp`. -/
def printHelp (w : World) : World :=
  let w1 := println "\nUsage: wcli <command>" w
  let w2 := println "A simple CLI weather app." w1
  let w3 := println "USAGE:" w2
  let w4 := printCommands commands w3
  println "" w4

/-! ## Credential store: writing -/

/-- The slice `prompts` of `setup`. -/
def prompts : List String := ["LATITUDE", "LONGITUDE", "API_KEY"]

/-- A write of `data` to the open `.env` file. -/
def fileWrite (data : String) (w : World) : World :=
  record (.fileWrite ".env" data) { w with envFile := some ((w.envFile.getD "") ++ data) }

/-- The loop over `prompts` in `setup`; `k` counts the writes made so far. -/
def setupLoop (sys : Sys) : List String → Nat → World → Outcome Unit
  | [], _, w => .ok () w
  | key :: rest, k, w =>
    let w1 := print ("Enter " ++ key ++ ": ") w
    let input := TrimSpace ⟨(readString '\n' w1.stdin).1⟩
    let w2 := { w1 with stdin := (readString '\n' w1.stdin).2 }
    let data := key ++ "=" ++ input ++ "\n"
    match sys.writeErr k with
    | some (n, err) => logFatal ("Failed to write to file: " ++ err) (fileWrite (data.take n) w2)
    | none => setupLoop sys rest (k + 1) (fileWrite data w2)

/-- Body of `setup`.  `defer file.Close()` runs when the function returns; it
does not run when `log.Fatalf` ends the process. -/
def setup (sys : Sys) (w : World) : Outcome Unit :=
  match sys.createErr with
  | some err => logFatal ("Could not create file: " ++ err) (record (.fileCreate ".env" false) w)
  | none =>
    let w1 := record (.fileCreate ".env" true) { w with envFile := some "" }
    match setupLoop sys prompts 0 w1 with
    | .ok _ w2 => .ok () (record (.fileClose ".env") (println ".env file created successfully." w2))
    | other => other

namespace godotenv

/-! ## Credential store: reading

`godotenv.Load` belongs to the module `github.com/joho/godotenv`, which the
program imports; its parser is embedded here after release 1.5.1 of that
module (`godotenv.go`, `parser.go`). -/

/-- The double quote. -/
def dq : Char := Char.ofNat 34

/-- The single quote. -/
def sq : Char := Char.ofNat 39

/-- The backslash. -/
def bs : Char := Char.ofNat 92

/-- The parser's own `isSpace`: blanks that do not end a line. -/
def isSpace (c : Char) : Bool :=
  c == '\t' || c == Char.ofNat 11 || c == Char.ofNat 12 || c == '\r' || c == ' '
    || c == Char.ofNat 0x85 || c == Char.ofNat 0xA0

/-- The parser's `isLineEnd`. -/
def isLineEnd (c : Char) : Bool :=
  c == '\n' || c == '\r'

/-- The call `bytes.Replace(src, "\r\n", "\n", -1)` that opens `parseBytes`. -/
def replaceCRLF : List Char → List Char
  | c :: d :: rest =>
    if c == '\r' && d == '\n' then '\n' :: replaceCRLF rest else c :: replaceCRLF (d :: rest)
  | l => l

/-- The parser's `getStatementStart`: skip white space and comment lines;
`none` at the end of the file.  The flag says that the scan is inside a
comment, which lasts up to the next line feed. -/
def getStatementStart : Bool → List Char → Option (List Char)
  | _, [] => none
  | false, c :: cs =>
    if unicodeIsSpace c then getStatementStart false cs
    else if c == '#' then getStatementStart true cs
    else some (c :: cs)
  | true, c :: cs =>
    if c == '\n' then getStatementStart false cs else getStatementStart true cs

/-- Model of `unicode.IsLetter` on a Latin-1 code point. -/
def latin1Letter (n : Nat) : Bool :=
  (65 ≤ n && n ≤ 90) || (97 ≤ n && n ≤ 122) || n == 0xAA || n == 0xB5 || n == 0xBA
    || (0xC0 ≤ n && n ≤ 0xD6) || (0xD8 ≤ n && n ≤ 0xF6) || (0xF8 ≤ n && n ≤ 0xFF)

/-- Model of `unicode.IsNumber` on a Latin-1 code point. -/
def latin1Number (n : Nat) : Bool :=
  (48 ≤ n && n ≤ 57) || n == 0xB2 || n == 0xB3 || n == 0xB9 || (0xBC ≤ n && n ≤ 0xBE)

/-- A byte the key loop of `locateKeyName` steps over: a blank, an underscore,
a letter, a number or a point, the byte being read as a Latin-1 code point. -/
def keyByteOk (n : Nat) : Bool :=
  n == 9 || n == 11 || n == 12 || n == 13 || n == 32 || n == 0x85 || n == 0xA0
    || n == 95 || latin1Letter n || latin1Number n || n == 46

/-- The key loop walks over bytes: a character passes when each byte of its
UTF-8 encoding does. -/
def keyCharOk (c : Char) : Bool :=
  if c.toNat < 128 then keyByteOk c.toNat
  else (String.utf8EncodeChar c).all (fun b => keyByteOk b.toNat)

/-- The loop of `locateKeyName`: the key (kept reversed in `acc` while
scanning) and the text after the separator.  Without a separator the key
stays empty and the offset zero, so the text is all of `src`. -/
def keyLoop (src : List Char) : List Char → List Char → Except String (List Char × List Char)
  | _, [] => .ok ([], src)
  | acc, c :: cs =>
    if c == '=' || c == ':' then .ok (acc.reverse, cs)
    else if keyCharOk c then keyLoop src (c :: acc) cs
    else .error "unexpected character in variable name"

/-- The parser's `locateKeyName`. -/
def locateKeyName (src0 : List Char) : Except String (List Char × List Char) :=
  let src1 := src0.dropWhile isSpace
  let src :=
    if "export".data.isPrefixOf src1 then
      if (src1.drop 6).head?.map isSpace = some true then (src1.drop 6).dropWhile isSpace
      else src1
    else src1
  match keyLoop src [] src with
  | .error e => .error e
  | .ok (key, rest) =>
    if src.isEmpty then .error "zero length string"
    else .ok (key.rdropWhile unicodeIsSpace, rest.dropWhile isSpace)

/-- Characters of the class `[A-Z0-9_]`. -/
def isVarChar (c : Char) : Bool :=
  ('A' ≤ c && c ≤ 'Z') || ('0' ≤ c && c ≤ '9') || c == '_'

/-- Drop one leading `c`, if there is one. -/
def dropOne (c : Char) : List Char → List Char
  | [] => []
  | d :: rest => if d == c then rest else d :: rest

/-- Take one leading `c`, if there is one. -/
def takeOne (c : Char) : List Char → List Char
  | [] => []
  | d :: _ => if d == c then [d] else []

/-- Value of a name in the variables read so far, empty when absent. -/
def lookupVar (m : List (List Char × List Char)) (name : List Char) : List Char :=
  match m.find? (fun kv => kv.1 == name) with
  | some kv => kv.2
  | none => []

/-- The parser's `expandVariables`: replace the matches of
`(\\)?(\$)(\()?\{?([A-Z0-9_]+)?\}?`, left to right.  A match that begins
with a backslash loses it, a match with a name becomes the value of the
name, any other match stays. -/
def expandVariables (m : List (List Char × List Char)) : Nat → List Char → List Char
  | 0, l => l
  | _ + 1, [] => []
  | fuel + 1, c :: cs =>
    if c == bs && cs.head? == some '$' then
      let l1 := dropOne '(' cs.tail
      let l2 := dropOne '{' l1
      let l3 := l2.dropWhile isVarChar
      ('$' :: (takeOne '(' cs.tail ++ takeOne '{' l1 ++ l2.takeWhile isVarChar ++ takeOne '}' l3))
        ++ expandVariables m fuel (dropOne '}' l3)
    else if c == '$' then
      let l1 := dropOne '(' cs
      let l2 := dropOne '{' l1
      let l3 := l2.dropWhile isVarChar
      (if l2.takeWhile isVarChar = [] then
          '$' :: (takeOne '(' cs ++ takeOne '{' l1 ++ takeOne '}' l3)
        else lookupVar m (l2.takeWhile isVarChar))
        ++ expandVariables m fuel (dropOne '}' l3)
    else c :: expandVariables m fuel cs

/-- First step of the parser's `expandEscapes`: the matches of `\\.` turn
`\n` and `\r` into the control characters and leave the rest alone. -/
def expandNewlines : List Char → List Char
  | b :: c :: rest =>
    if b == bs && c != '\n' then
      (if c == 'n' then ['\n'] else if c == 'r' then ['\r'] else [b, c]) ++ expandNewlines rest
    else b :: expandNewlines (c :: rest)
  | l => l

/-- Second step of `expandEscapes`: `\\([^$])` is replaced by its group. -/
def unescapeChars : List Char → List Char
  | b :: c :: rest =>
    if b == bs && c != '$' then c :: unescapeChars rest else b :: unescapeChars (c :: rest)
  | l => l

/-- The parser's `expandEscapes`. -/
def expandEscapes (l : List Char) : List Char :=
  unescapeChars (expandNewlines l)

/-- The backward scan of `extractVarValue` for a comment, on the reversed
line: the text before the last `#` that follows a blank. -/
def cutComment : List Char → Option (List Char)
  | c :: p :: rest => if c == '#' && isSpace p then some (p :: rest) else cutComment (p :: rest)
  | _ => none

/-- The search of `extractVarValue` for the closing quote: the first quote
from index 1 on that no backslash precedes.  Returns the text before it (kept
reversed in `acc` while scanning) and the text after it. -/
def findClose (quote : Char) : Char → List Char → List Char → Option (List Char × List Char)
  | _, _, [] => none
  | prev, acc, c :: cs =>
    if c == quote && prev != bs then some (acc.reverse, cs)
    else findClose quote c (c :: acc) cs

/-- The parser's `extractVarValue`: the value and the rest of the input. -/
def extractVarValue (src : List Char) (vars : List (List Char × List Char)) :
    Except String (List Char × List Char) :=
  match src with
  | [] => .ok ([], [])
  | q :: tail =>
    if q == dq || q == sq then
      match findClose q q [q] tail with
      | none => .error "unterminated quoted value"
      | some (pre, rest) =>
        let value := (pre.rdropWhile (· == q)).dropWhile (· == q)
        if q == dq then
          .ok (expandVariables vars (value.length + 1) (expandEscapes value), rest)
        else .ok (value, rest)
    else
      let line := src.takeWhile (fun c => !isLineEnd c)
      let rest := src.dropWhile (fun c => !isLineEnd c)
      if line.isEmpty then .ok ([], rest)
      else
        let var := match cutComment line.reverse with
          | some r => r.reverse
          | none => line
        let trimmed := (var.dropWhile isSpace).rdropWhile isSpace
        .ok (expandVariables vars (trimmed.length + 1) trimmed, rest)

/-- The assignment `out[key] = value` on a map kept as an association list. -/
def setVar (k v : List Char) : List (List Char × List Char) → List (List Char × List Char)
  | [] => [(k, v)]
  | kv :: rest => if kv.1 == k then (k, v) :: rest else kv :: setVar k v rest

/-- The loop of `parseBytes`.  Every round consumes input, so a `fuel` above
the length of the input is never used up (`parseLoop_total`); `none` stands
for the fuel running out. -/
def parseLoop : Nat → List Char → List (List Char × List Char) →
    Option (Except String (List (List Char × List Char)))
  | 0, _, _ => none
  | fuel + 1, src, out =>
    match getStatementStart false src with
    | none => some (.ok out)
    | some cut =>
      match locateKeyName cut with
      | .error e => some (.error e)
      | .ok (key, left) =>
        match extractVarValue left out with
        | .error e => some (.error e)
        | .ok (value, left2) => parseLoop fuel left2 (setVar key value out)

/-- The parser's `parseBytes` on the contents of a file. -/
def parseBytes (content : String) : Except String (List (String × String)) :=
  match parseLoop ((replaceCRLF content.data).length + 1) (replaceCRLF content.data) [] with
  | none => .error "out of fuel"
  | some (.error e) => .error e
  | some (.ok out) => .ok (out.map (fun kv => (String.mk kv.1, String.mk kv.2)))

end godotenv

/-- Model of `os.Getenv`: the value bound to a name, empty when there is none. -/
def Getenv (environ : List (String × String)) (key : String) : String :=
  match environ.find? (fun kv => kv.1 == key) with
  | some kv => kv.2
  | none => ""

/-- Model of `os.Setenv`: refuses an empty name, a name with `=` or NUL and a value
with NUL; otherwise binds the name. -/
def Setenv (key value : String) (environ : List (String × String)) :
    List (String × String) :=
  if key.data.isEmpty || key.data.any (fun c => c == '=' || c == Char.ofNat 0)
      || value.data.any (fun c => c == Char.ofNat 0) then environ
  else (key, value) :: environ.filter (fun kv => kv.1 != key)

/-- The loop of godotenv's `loadFile` without overload: a name the process
environment held before the call keeps its value. -/
def loadInto (envMap : List (String × String)) (environ : List (String × String)) :
    List (String × String) :=
  envMap.foldl (fun env kv => if environ.any (fun e => e.1 == kv.1) then env
    else Setenv kv.1 kv.2 env) environ

/-- Model of `godotenv.Load()` with no argument: read `.env`, parse it, export what
the environment does not hold yet.  Returns the error, if any. -/
def godotenv.Load (sys : Sys) (w : World) : World × Option String :=
  let w1 := record (.fileLoad ".env") w
  match sys.loadErr with
  | some e => (w1, some e)
  | none =>
    match w1.envFile with
    | none => (w1, some "open .env: no such file or directory")
    | some content =>
      match godotenv.parseBytes content with
      | .error e => (w1, some e)
      | .ok envMap => ({ w1 with environ := loadInto envMap w1.environ }, none)

/-! ## Weather client -/

/-- The `fmt.Sprintf` call of `getWeather`. -/
def requestURL (lat lon appid : String) : String :=
  "https://api.openweathermap.org/data/3.0/onecall?lat=" ++ lat ++ "&lon=" ++ lon
    ++ "&units=imperial&exclude=minutely,hourly,alerts&appid=" ++ appid

/-- Body of `getWeather`.  `defer resp.Body.Close()` runs when the function
returns; it does not run when `log.Fatalln` ends the process. -/
def getWeather (sys : Sys) (w : World) : Outcome weatherResponse :=
  match godotenv.Load sys w with
  | (w1, some _) => logFatal "Error Loading .env File. Run wcli help for setup command." w1
  | (w1, none) =>
    let lat := Getenv w1.environ "LATITUDE"
    let lon := Getenv w1.environ "LONGITUDE"
    let appid := Getenv w1.environ "API_KEY"
    let url := requestURL lat lon appid
    let w2 := record (.httpGet url) w1
    match sys.httpGet url with
    | .error e => logFatal e w2
    | .ok resp =>
      let w3 := record .bodyRead w2
      match resp.body with
      | .error e => logFatal e w3
      | .ok body =>
        match sys.decode body with
        | .error e => logFatal e w3
        | .ok weatherData => .ok weatherData (record .bodyClose w3)

/-! ## Presenter -/

/-- Body of `weatherToday`. -/
def weatherToday (weatherData : weatherResponse) (w : World) : Outcome Unit :=
  let w1 := print ("Current Temp: " ++ formatF1 weatherData.Current.Temp ++ "°F\n") w
  match weatherData.Daily[0]? with
  | none => .panic "runtime error: index out of range [0] with length 0" w1
  | some d => .ok () (print ("Weather: " ++ d.Summary ++ "\n") w1)

/-- The loop `for day := range days` of `weatherDaily`, with `n` iterations
left and `day` the current index. -/
def weatherDailyLoop (zone : Int → Int) (daily : List DailyEntry) :
    Nat → Nat → World → Outcome Unit
  | 0, _, w => .ok () w
  | n + 1, day, w =>
    match daily[day]? with
    | none =>
      .panic ("runtime error: index out of range [" ++ formatNat day ++ "] with length "
        ++ formatNat daily.length) w
    | some d =>
      let w1 := print (weekdayString (Weekday zone d.Dt) ++ " ") w
      let w2 := print (formatF1 d.Temp.Day ++ "°F\n") w1
      weatherDailyLoop zone daily n (day + 1) w2

/-- Body of `weatherDaily`. -/
def weatherDaily (zone : Int → Int) (weatherData : weatherResponse) (w : World) : Outcome Unit :=
  weatherDailyLoop zone weatherData.Daily weatherData.Daily.length 0 w

/-! ## Command dispatcher -/

/-- Body of `main` on the argument vector `os.Args`. -/
def main (sys : Sys) (args : List String) (w : World) : Outcome Unit :=
  if args.length < 2 then
    logFatal "No arguments provided." (printHelp w)
  else
    match args[1]? with
    | none => .panic "runtime error: index out of range [1]" w
    | some arg =>
      if arg = "setup" then setup sys w
      else if arg = "current" then
        match getWeather sys w with
        | .ok weatherData w1 => weatherToday weatherData w1
        | .exit code w1 => .exit code w1
        | .panic msg w1 => .panic msg w1
      else if arg = "daily" then
        match getWeather sys w with
        | .ok weatherData w1 => weatherDaily sys.zone weatherData w1
        | .exit code w1 => .exit code w1
        | .panic msg w1 => .panic msg w1
      else if arg = "help" then .ok () (printHelp w)
      else .exit 1 (println "Unknown argument. Use 'wcli help' for a list of commands." w)

/-- The exit status of the process: 0 after a normal return of `main`, the
argument of `os.Exit`, 2 after a panic. -/
def exitStatus : Outcome Unit → Nat
  | .ok _ _ => 0
  | .exit code _ => code
  | .panic _ _ => 2

/-! ## Vocabulary of the statements -/

/-- Lines joined the way consecutive `Printf("...\n")` calls emit them. -/
def joinLines : List String → String
  | [] => ""
  | l :: ls => l ++ "\n" ++ joinLines ls

/-- The line `weatherDaily` prints for one entry, without its line feed. -/
def dailyLine (zone : Int → Int) (d : DailyEntry) : String :=
  weekdayString (Weekday zone d.Dt) ++ " " ++ formatF1 d.Temp.Day ++ "°F"

/-- Number of line feeds in a string. -/
def lineFeeds (s : String) : Nat :=
  s.data.count '\n'

/-- The text `printHelp` writes. -/
def helpText : String :=
  "\nUsage: wcli <command>\nA simple CLI weather app.\nUSAGE:\n"
    ++ "  setup      Configure your location and API key\n"
    ++ "  current    Show current weather info\n"
    ++ "  help       Display this help message\n"
    ++ "\n"

/-- The unknown-argument message of `main`. -/
def unknownText : String :=
  "Unknown argument. Use 'wcli help' for a list of commands.\n"

/-- The three lines the credential file is to hold. -/
def credentialFile (a b c : String) : String :=
  "LATITUDE=" ++ a ++ "\n" ++ "LONGITUDE=" ++ b ++ "\n" ++ "API_KEY=" ++ c ++ "\n"

/-- The `n`-th reply, from 0, that `ReadString` cuts out of the pending input,
white space at its two ends removed. -/
def reply : Nat → List Char → String
  | 0, input => TrimSpace ⟨(readString '\n' input).1⟩
  | n + 1, input => reply n (readString '\n' input).2

/-- The input left after `n` calls of `ReadString`. -/
def afterReplies : Nat → List Char → List Char
  | 0, input => input
  | n + 1, input => afterReplies n (readString '\n' input).2

/-! ## The request URL -/

/-- Pieces of a text between the occurrences of a separator. -/
def splitOn (sep : Char) : List Char → List (List Char)
  | [] => [[]]
  | c :: cs =>
    if c = sep then [] :: splitOn sep cs
    else match splitOn sep cs with
      | [] => [[c]]
      | p :: ps => (c :: p) :: ps

/-- A parameter of a query: a name, one `=`, a value. -/
def parsePair (p : List Char) : Option (String × String) :=
  match splitOn '=' p with
  | [n, v] => some (⟨n⟩, ⟨v⟩)
  | _ => none

/-- The parameters of a query, all of them well formed. -/
def parsePairs : List (List Char) → Option (List (String × String))
  | [] => some []
  | p :: ps =>
    match parsePair p, parsePairs ps with
    | some kv, some kvs => some (kv :: kvs)
    | _, _ => none

/-- A strict reader of URLs with a query: no white space anywhere, the
fragment sign `#` ends the query, the query follows the first `?`, its
parameters are separated by `&` and each is `name=value` with a single `=`.
Returns the address before the `?` and the parameters in order. -/
def parseURL (url : String) : Option (String × List (String × String)) :=
  if url.data.any unicodeIsSpace then none
  else
    let main := url.data.takeWhile (fun c => c != '#')
    match main.dropWhile (fun c => c != '?') with
    | [] => none
    | _ :: query =>
      match parsePairs (splitOn '&' query) with
      | none => none
      | some params => some (⟨main.takeWhile (fun c => c != '?')⟩, params)

/-- The fixed address of the One Call endpoint. -/
def endpoint : String := "https://api.openweathermap.org/data/3.0/onecall"

/-- A credential that can stand in a query as it is. -/
def plainValue (s : String) : Prop :=
  ∀ c ∈ s.data, c ≠ '&' ∧ c ≠ '=' ∧ c ≠ '#' ∧ unicodeIsSpace c = false

/-! ## The credential flow on raw text

What is typed at the terminal is a sequence of bytes and need not be valid
UTF-8.  `setup` copies such bytes into the file as they are, while the parser
of godotenv turns the line of an unquoted value into runes and back.  The
definitions of this section follow the same source lines as `setup` and the
parser above, on text in which a byte outside any well-formed encoding has a
place of its own.  They keep standard output and the diagnostics but no
trace of operations. -/

namespace Raw

/-- One element of a Go string as `utf8.DecodeRune` reads it: a code point
with a well-formed encoding, or a single byte (from 0x80 on) that belongs to
none.  Such a byte decodes to U+FFFD with width 1 and is copied as it is. -/
inductive GoChar where
  | rune (c : Char)
  | stray (b : Nat)
deriving DecidableEq

/-- The elements of a string that is valid UTF-8. -/
def text (s : String) : List GoChar :=
  s.data.map GoChar.rune

/-- A predicate on runes, asked of an element: a stray byte decodes to U+FFFD,
for which every predicate used here is false. -/
def holds (p : Char → Bool) : GoChar → Bool
  | .rune c => p c
  | .stray _ => false

/-- The element is the character `c`. -/
def isChar (c : Char) : GoChar → Bool
  | .rune d => d == c
  | .stray _ => false

/-- The text begins with the character `c`. -/
def startsWith (c : Char) : List GoChar → Bool
  | [] => false
  | x :: _ => isChar c x

/-- Model of `bufio.Reader.ReadString` with the line feed as delimiter. -/
def readString : List GoChar → List GoChar × List GoChar
  | [] => ([], [])
  | x :: xs =>
    if isChar '\n' x then ([x], xs)
    else ((x :: (readString xs).1), (readString xs).2)

/-- Model of `strings.TrimSpace`. -/
def trimSpace (l : List GoChar) : List GoChar :=
  (l.dropWhile (holds unicodeIsSpace)).rdropWhile (holds unicodeIsSpace)

/-- The part of the world the credential flow acts on. -/
structure World where
  stdin : List GoChar := []
  stdout : String := ""
  stderr : List String := []
  envFile : Option (List GoChar) := none
  environ : List (List GoChar × List GoChar) := []
deriving DecidableEq

/-- How `setup` ends: it returns, or `log.Fatalf` exits the process. -/
inductive Outcome where
  | ok (w : World)
  | exit (code : Nat) (w : World)
deriving DecidableEq

/-- A write of `data` to the open `.env` file. -/
def fileWrite (data : List GoChar) (w : World) : World :=
  { w with envFile := some ((w.envFile.getD []) ++ data) }

/-- The loop over `prompts` in `setup`; `k` counts the writes made so far. -/
def setupLoop (sys : Sys) : List String → Nat → World → Outcome
  | [], _, w => .ok w
  | key :: rest, k, w =>
    let w1 := { w with stdout := w.stdout ++ ("Enter " ++ key ++ ": ") }
    let input := trimSpace (readString w1.stdin).1
    let w2 := { w1 with stdin := (readString w1.stdin).2 }
    let data := text key ++ GoChar.rune '=' :: (input ++ [GoChar.rune '\n'])
    match sys.writeErr k with
    | some (n, err) =>
      .exit 1 { fileWrite (data.take n) w2 with
        stderr := w2.stderr ++ ["Failed to write to file: " ++ err] }
    | none => setupLoop sys rest (k + 1) (fileWrite data w2)

/-- Body of `setup`. -/
def setup (sys : Sys) (w : World) : Outcome :=
  match sys.createErr with
  | some err => .exit 1 { w with stderr := w.stderr ++ ["Could not create file: " ++ err] }
  | none =>
    match setupLoop sys prompts 0 { w with envFile := some [] } with
    | .ok w2 => .ok { w2 with stdout := w2.stdout ++ ".env file created successfully.\n" }
    | other => other

namespace dotenv

/-- The parser's `isSpace`. -/
def isSpace : GoChar → Bool := holds godotenv.isSpace

/-- The parser's `isLineEnd`. -/
def isLineEnd : GoChar → Bool := holds godotenv.isLineEnd

/-- The call `bytes.Replace(src, "\r\n", "\n", -1)` that opens `parseBytes`. -/
def replaceCRLF : List GoChar → List GoChar
  | x :: y :: rest =>
    if isChar '\r' x && isChar '\n' y then y :: replaceCRLF rest else x :: replaceCRLF (y :: rest)
  | l => l

/-- The parser's `getStatementStart`; the flag says that the scan is inside a
comment. -/
def getStatementStart : Bool → List GoChar → Option (List GoChar)
  | _, [] => none
  | false, x :: xs =>
    if holds unicodeIsSpace x then getStatementStart false xs
    else if isChar '#' x then getStatementStart true xs
    else some (x :: xs)
  | true, x :: xs =>
    if isChar '\n' x then getStatementStart false xs else getStatementStart true xs

/-- An element the key loop steps over.  The loop walks over bytes: a rune
passes when each byte of its encoding does, a stray byte when it does. -/
def keyItemOk : GoChar → Bool
  | .rune c => godotenv.keyCharOk c
  | .stray b => godotenv.keyByteOk b

/-- The loop of `locateKeyName`. -/
def keyLoop (src : List GoChar) :
    List GoChar → List GoChar → Except String (List GoChar × List GoChar)
  | _, [] => .ok ([], src)
  | acc, x :: xs =>
    if isChar '=' x || isChar ':' x then .ok (acc.reverse, xs)
    else if keyItemOk x then keyLoop src (x :: acc) xs
    else .error "unexpected character in variable name"

/-- The parser's `locateKeyName`. -/
def locateKeyName (src0 : List GoChar) : Except String (List GoChar × List GoChar) :=
  let src1 := src0.dropWhile isSpace
  let src :=
    if (text "export").isPrefixOf src1 then
      if (src1.drop 6).head?.map isSpace = some true then (src1.drop 6).dropWhile isSpace
      else src1
    else src1
  match keyLoop src [] src with
  | .error e => .error e
  | .ok (key, rest) =>
    if src.isEmpty then .error "zero length string"
    else .ok (key.rdropWhile (holds unicodeIsSpace), rest.dropWhile isSpace)

/-- Drop one leading `c`, if there is one. -/
def dropOne (c : Char) : List GoChar → List GoChar
  | [] => []
  | x :: rest => if isChar c x then rest else x :: rest

/-- Take one leading `c`, if there is one. -/
def takeOne (c : Char) : List GoChar → List GoChar
  | [] => []
  | x :: _ => if isChar c x then [x] else []

/-- Value of a name in the variables read so far, empty when absent. -/
def lookupVar (m : List (List GoChar × List GoChar)) (name : List GoChar) : List GoChar :=
  match m.find? (fun kv => kv.1 == name) with
  | some kv => kv.2
  | none => []

/-- The parser's `expandVariables`: replace the matches of
`(\\)?(\$)(\()?\{?([A-Z0-9_]+)?\}?`, left to right.  A match that begins
with a backslash loses it, a match with a name becomes the value of the
name, any other match stays. -/
def expandVariables (m : List (List GoChar × List GoChar)) : Nat → List GoChar → List GoChar
  | 0, l => l
  | _ + 1, [] => []
  | fuel + 1, x :: xs =>
    if isChar godotenv.bs x && startsWith '$' xs then
      let l1 := dropOne '(' xs.tail
      let l2 := dropOne '{' l1
      let l3 := l2.dropWhile (holds godotenv.isVarChar)
      (GoChar.rune '$' :: (takeOne '(' xs.tail ++ takeOne '{' l1
          ++ l2.takeWhile (holds godotenv.isVarChar) ++ takeOne '}' l3))
        ++ expandVariables m fuel (dropOne '}' l3)
    else if isChar '$' x then
      let l1 := dropOne '(' xs
      let l2 := dropOne '{' l1
      let l3 := l2.dropWhile (holds godotenv.isVarChar)
      (if l2.takeWhile (holds godotenv.isVarChar) = [] then
          x :: (takeOne '(' xs ++ takeOne '{' l1 ++ takeOne '}' l3)
        else lookupVar m (l2.takeWhile (holds godotenv.isVarChar)))
        ++ expandVariables m fuel (dropOne '}' l3)
    else x :: expandVariables m fuel xs

/-- First step of the parser's `expandEscapes`. -/
def expandNewlines : List GoChar → List GoChar
  | b :: c :: rest =>
    if isChar godotenv.bs b && !isChar '\n' c then
      (if isChar 'n' c then [GoChar.rune '\n'] else if isChar 'r' c then [GoChar.rune '\r']
        else [b, c]) ++ expandNewlines rest
    else b :: expandNewlines (c :: rest)
  | l => l

/-- Second step of `expandEscapes`: `\\([^$])` is replaced by its group. -/
def unescapeChars : List GoChar → List GoChar
  | b :: c :: rest =>
    if isChar godotenv.bs b && !isChar '$' c then c :: unescapeChars rest
    else b :: unescapeChars (c :: rest)
  | l => l

/-- The parser's `expandEscapes`. -/
def expandEscapes (l : List GoChar) : List GoChar :=
  unescapeChars (expandNewlines l)

/-- The conversion `[]rune(string(..))` and back that `extractVarValue`
applies to the line of an unquoted value: a stray byte becomes U+FFFD. -/
def sanitize : GoChar → GoChar
  | .rune c => .rune c
  | .stray _ => .rune (Char.ofNat 0xFFFD)

/-- The backward scan of `extractVarValue` for a comment, on the reversed
line: the text before the last `#` that follows a blank. -/
def cutComment : List GoChar → Option (List GoChar)
  | c :: p :: rest =>
    if isChar '#' c && isSpace p then some (p :: rest) else cutComment (p :: rest)
  | _ => none

/-- The search of `extractVarValue` for the closing quote. -/
def findClose (quote : GoChar) :
    GoChar → List GoChar → List GoChar → Option (List GoChar × List GoChar)
  | _, _, [] => none
  | prev, acc, c :: cs =>
    if c == quote && !isChar godotenv.bs prev then some (acc.reverse, cs)
    else findClose quote c (c :: acc) cs

/-- The parser's `extractVarValue`: the value and the rest of the input. -/
def extractVarValue (src : List GoChar) (vars : List (List GoChar × List GoChar)) :
    Except String (List GoChar × List GoChar) :=
  match src with
  | [] => .ok ([], [])
  | q :: tail =>
    if isChar godotenv.dq q || isChar godotenv.sq q then
      match findClose q q [q] tail with
      | none => .error "unterminated quoted value"
      | some (pre, rest) =>
        let value := (pre.rdropWhile (· == q)).dropWhile (· == q)
        if isChar godotenv.dq q then
          .ok (expandVariables vars (value.length + 1) (expandEscapes value), rest)
        else .ok (value, rest)
    else
      let line := ((q :: tail).takeWhile (fun c => !isLineEnd c)).map sanitize
      let rest := (q :: tail).dropWhile (fun c => !isLineEnd c)
      if line.isEmpty then .ok ([], rest)
      else
        let var := match cutComment line.reverse with
          | some r => r.reverse
          | none => line
        let trimmed := (var.dropWhile isSpace).rdropWhile isSpace
        .ok (expandVariables vars (trimmed.length + 1) trimmed, rest)

/-- The assignment `out[key] = value` on a map kept as an association list. -/
def setVar (k v : List GoChar) :
    List (List GoChar × List GoChar) → List (List GoChar × List GoChar)
  | [] => [(k, v)]
  | kv :: rest => if kv.1 == k then (k, v) :: rest else kv :: setVar k v rest

/-- The loop of `parseBytes`; `none` stands for the fuel running out. -/
def parseLoop : Nat → List GoChar → List (List GoChar × List GoChar) →
    Option (Except String (List (List GoChar × List GoChar)))
  | 0, _, _ => none
  | fuel + 1, src, out =>
    match getStatementStart false src with
    | none => some (.ok out)
    | some cut =>
      match locateKeyName cut with
      | .error e => some (.error e)
      | .ok (key, left) =>
        match extractVarValue left out with
        | .error e => some (.error e)
        | .ok (value, left2) => parseLoop fuel left2 (setVar key value out)

/-- The parser's `parseBytes` on the contents of a file. -/
def parseBytes (content : List GoChar) : Except String (List (List GoChar × List GoChar)) :=
  match parseLoop ((replaceCRLF content).length + 1) (replaceCRLF content) [] with
  | none => .error "out of fuel"
  | some r => r

end dotenv

/-- Model of `os.Getenv`. -/
def Getenv (environ : List (List GoChar × List GoChar)) (key : List GoChar) : List GoChar :=
  match environ.find? (fun kv => kv.1 == key) with
  | some kv => kv.2
  | none => []

/-- Model of `os.Setenv`: refuses an empty name, a name with `=` or NUL and a
value with NUL; otherwise binds the name. -/
def Setenv (key value : List GoChar) (environ : List (List GoChar × List GoChar)) :
    List (List GoChar × List GoChar) :=
  if key.isEmpty || key.any (fun x => isChar '=' x || isChar (Char.ofNat 0) x)
      || value.any (fun x => isChar (Char.ofNat 0) x) then environ
  else (key, value) :: environ.filter (fun kv => kv.1 != key)

/-- The loop of godotenv's `loadFile` without overload: a name the process
environment held before the call keeps its value. -/
def loadInto (envMap : List (List GoChar × List GoChar))
    (environ : List (List GoChar × List GoChar)) : List (List GoChar × List GoChar) :=
  envMap.foldl (fun env kv => if environ.any (fun e => e.1 == kv.1) then env
    else Setenv kv.1 kv.2 env) environ

/-- Model of `godotenv.Load()` with no argument.  Returns the error, if any. -/
def Load (sys : Sys) (w : World) : World × Option String :=
  match sys.loadErr with
  | some e => (w, some e)
  | none =>
    match w.envFile with
    | none => (w, some "open .env: no such file or directory")
    | some content =>
      match dotenv.parseBytes content with
      | .error e => (w, some e)
      | .ok envMap => ({ w with environ := loadInto envMap w.environ }, none)

/-- The three values `getWeather` reads out of the environment. -/
def credentials (w : World) : List GoChar × List GoChar × List GoChar :=
  (Getenv w.environ (text "LATITUDE"), Getenv w.environ (text "LONGITUDE"),
    Getenv w.environ (text "API_KEY"))

/-- A run of `setup` followed by the loading step of `getWeather`: the
credentials the client then sees, `none` when either step ends the process. -/
def setupThenLoad (sys : Sys) (w : World) :
    Option (List GoChar × List GoChar × List GoChar) :=
  match setup sys w with
  | .ok w1 =>
    match Load sys w1 with
    | (w2, none) => some (credentials w2)
    | (_, some _) => none
  | .exit _ _ => none

/-- The raw view of a world whose texts are valid UTF-8; the trace is left
behind. -/
def ofWorld (w : Wxcli.World) : World :=
  { stdin := w.stdin.map GoChar.rune,
    stdout := w.stdout,
    stderr := w.stderr,
    envFile := w.envFile.map text,
    environ := w.environ.map (fun kv => (text kv.1, text kv.2)) }

/-- The raw view of the way `setup` ends. -/
def ofOutcome : Wxcli.Outcome Unit → Outcome
  | .ok _ w => .ok (ofWorld w)
  | .exit code w => .exit code (ofWorld w)
  | .panic _ w => .exit 2 (ofWorld w)

/-- The value begins with a double or single quote. -/
def startsQuoted : List GoChar → Bool
  | [] => false
  | x :: _ => isChar godotenv.dq x || isChar godotenv.sq x

/-- Somewhere in the value a `#` comes right after a blank of the parser. -/
def blankHash : List GoChar → Bool
  | p :: c :: rest => (dotenv.isSpace p && isChar '#' c) || blankHash (c :: rest)
  | _ => false

/-- After at most one `(` and at most one `{` the text goes on with a
character of `[A-Z0-9_]`. -/
def opensName (post : List GoChar) : Bool :=
  match dotenv.dropOne '{' (dotenv.dropOne '(' post) with
  | [] => false
  | x :: _ => holds godotenv.isVarChar x

/-- Somewhere in the value a `$` comes right after a backslash, or opens a
name. -/
def expands : List GoChar → Bool
  | [] => false
  | x :: xs =>
    (isChar godotenv.bs x && startsWith '$' xs) || (isChar '$' x && opensName xs) || expands xs

/-- A value the credential file gives back as it went in: it does not begin
with a quote, no `#` in it follows a blank, no `$` in it follows a backslash
or opens a name, and there is no carriage return and no NUL in it. -/
def safeValue (s : String) : Prop :=
  startsQuoted (text s) = false ∧ blankHash (text s) = false ∧ expands (text s) = false
    ∧ '\r' ∉ s.data ∧ Char.ofNat 0 ∉ s.data

instance (s : String) : Decidable (safeValue s) := by
  unfold safeValue; infer_instance

/-- The environment does not hold any of the three names yet. -/
def freshEnviron (environ : List (List GoChar × List GoChar)) : Prop :=
  ∀ kv ∈ environ, kv.1 ≠ text "LATITUDE" ∧ kv.1 ≠ text "LONGITUDE" ∧ kv.1 ≠ text "API_KEY"

instance (environ : List (List GoChar × List GoChar)) : Decidable (freshEnviron environ) := by
  unfold freshEnviron; infer_instance

/-- An element a key of the credential file is made of. -/
def keyItem (x : GoChar) : Prop :=
  dotenv.keyItemOk x = true ∧ isChar '=' x = false ∧ isChar ':' x = false
    ∧ holds unicodeIsSpace x = false ∧ isChar '#' x = false ∧ isChar 'e' x = false

instance (x : GoChar) : Decidable (keyItem x) := by
  unfold keyItem; infer_instance

/-- A value as `setup` writes it when the line typed was valid UTF-8 and the
trimmed value is safe: runes only, no line end, no white space at the two
ends. -/
def plainItems (v : List GoChar) : Prop :=
  (∀ x ∈ v, ∃ c, x = GoChar.rune c ∧ c ≠ '\r' ∧ c ≠ '\n')
    ∧ startsQuoted v = false ∧ blankHash v = false ∧ expands v = false
    ∧ (∀ x, v.head? = some x → holds unicodeIsSpace x = false)
    ∧ (∀ x, v.getLast? = some x → holds unicodeIsSpace x = false)

end Raw

/-! ## The daily listing -/

theorem world_stdout_self (w : World) : { w with stdout := w.stdout } = w := rfl

theorem weatherDailyLoop_eq (zone : Int → Int) (daily : List DailyEntry) :
    ∀ (n day : Nat) (w : World), day + n = daily.length →
      weatherDailyLoop zone daily n day w
        = .ok () { w with stdout := w.stdout ++ joinLines ((daily.drop day).map (dailyLine zone)) } := by
  intro n
  induction n with
  | zero =>
    intro day w h
    have hd : daily.drop day = [] := List.drop_eq_nil_of_le (by omega)
    simp [weatherDailyLoop, hd, joinLines]
  | succ n ih =>
    intro day w h
    have hlt : day < daily.length := by omega
    have hd : daily.drop day = daily[day] :: daily.drop (day + 1) := List.drop_eq_getElem_cons hlt
    have hg : daily[day]? = some daily[day] := List.getElem?_eq_getElem hlt
    simp only [weatherDailyLoop, hg]
    rw [ih (day + 1) _ (by omega), hd]
    simp [print, joinLines, dailyLine, String.append_assoc]

theorem digitChar_ne_lf (n : Nat) : digitChar n ≠ '\n' := by
  have h : n % 10 < 10 := Nat.mod_lt _ (by decide)
  unfold digitChar
  interval_cases (n % 10) <;> decide

theorem natDigits_no_lf : ∀ (fuel n : Nat), '\n' ∉ natDigits fuel n := by
  intro fuel
  induction fuel with
  | zero => intro n; simp [natDigits]
  | succ f ih =>
    intro n
    unfold natDigits
    split
    · simp; exact fun h => digitChar_ne_lf n h.symm
    · simp only [List.mem_append, List.mem_singleton, not_or]
      exact ⟨ih _, fun h => digitChar_ne_lf n h.symm⟩

theorem lineFeeds_append (a b : String) : lineFeeds (a ++ b) = lineFeeds a + lineFeeds b := by
  simp [lineFeeds, String.data_append, List.count_append]

theorem lineFeeds_formatNat (n : Nat) : lineFeeds (formatNat n) = 0 := by
  simp [lineFeeds, formatNat, List.count_eq_zero]
  exact natDigits_no_lf _ _

theorem lineFeeds_formatF1 (x : Float64) : lineFeeds (formatF1 x) = 0 := by
  unfold formatF1
  simp only [lineFeeds_append, lineFeeds_formatNat]
  split <;> decide

theorem Weekday_lt (zone : Int → Int) (sec : Int) : Weekday zone sec < 7 := by
  unfold Weekday
  have h1 := Int.emod_nonneg ((sec + zone sec) / 86400 + 4) (by decide : (7 : Int) ≠ 0)
  have h2 := Int.emod_lt_of_pos ((sec + zone sec) / 86400 + 4) (by decide : (0 : Int) < 7)
  omega

theorem weekdayString_mem (d : Nat) (h : d < 7) : weekdayString d ∈ longDayNames := by
  interval_cases d <;> decide

theorem lineFeeds_dayName (s : String) (h : s ∈ longDayNames) : lineFeeds s = 0 := by
  simp only [longDayNames, List.mem_cons, List.mem_singleton, List.not_mem_nil, or_false] at h
  rcases h with h | h | h | h | h | h | h <;> subst h <;> decide

theorem lineFeeds_dailyLine (zone : Int → Int) (d : DailyEntry) :
    lineFeeds (dailyLine zone d) = 0 := by
  unfold dailyLine
  simp only [lineFeeds_append, lineFeeds_formatF1,
    lineFeeds_dayName _ (weekdayString_mem _ (Weekday_lt zone d.Dt))]
  decide

theorem lineFeeds_joinLines (ls : List String) (h : ∀ l ∈ ls, lineFeeds l = 0) :
    lineFeeds (joinLines ls) = ls.length := by
  induction ls with
  | nil => rfl
  | cons l ls ih =>
    have h1 : lineFeeds "\n" = 1 := by decide
    simp only [joinLines, lineFeeds_append, h l (List.mem_cons_self _ _), h1, List.length_cons]
    rw [ih (fun x hx => h x (List.mem_cons_of_mem _ hx))]
    omega

theorem natDigits_eq_toDigitsCore : ∀ (fuel n : Nat) (ds : List Char),
    Nat.toDigitsCore 10 fuel n ds = natDigits fuel n ++ ds := by
  intro fuel
  induction fuel with
  | zero => intro n ds; simp [Nat.toDigitsCore, natDigits]
  | succ f ih =>
    intro n ds
    have hd : Nat.digitChar (n % 10) = digitChar n := by
      have h : n % 10 < 10 := Nat.mod_lt _ (by decide)
      unfold digitChar
      interval_cases (n % 10) <;> rfl
    simp only [Nat.toDigitsCore, natDigits, hd]
    by_cases h : n < 10
    · have h0 : n / 10 = 0 := Nat.div_eq_of_lt h
      simp [h, h0]
    · have h0 : n / 10 ≠ 0 := by omega
      simp [h, h0, ih]

/-- The decimal rendering used here is the one of `Nat.repr`. -/
theorem formatNat_eq_repr (n : Nat) : formatNat n = Nat.repr n := by
  simp [formatNat, Nat.repr, Nat.toDigits, natDigits_eq_toDigitsCore, List.asString]

theorem roundHalfEven_near (n d : Nat) (hd : 0 < d) :
    2 * (roundHalfEven n d * d) ≤ 2 * n + d ∧ 2 * n ≤ 2 * (roundHalfEven n d * d) + d := by
  have h1 : d * (n / d) + n % d = n := Nat.div_add_mod n d
  have h2 : n % d < d := Nat.mod_lt n hd
  have h3 : n / d * d = d * (n / d) := Nat.mul_comm _ _
  have h4 : (n / d + 1) * d = d * (n / d) + d := by rw [Nat.add_mul, h3, Nat.one_mul]
  unfold roundHalfEven
  simp only
  split
  · rw [h3]; omega
  · split
    · rw [h4]; omega
    · split
      · rw [h3]; omega
      · rw [h4]; omega

theorem formatNat_digit (k : Nat) (h : k < 10) : formatNat k = String.singleton (digitChar k) := by
  simp [formatNat, natDigits, h, String.singleton]
  rfl

/-- The rendering `%.1f` ends in a point and exactly one digit, and the value
printed is the nearest multiple of one tenth. -/
theorem formatF1_shape (x : Float64) :
    formatF1 x = (if x.neg then "-" else "") ++ formatNat (x.tenths / 10) ++ "."
        ++ String.singleton (digitChar (x.tenths % 10))
      ∧ (∀ e : Nat, x.exp = Int.negSucc e →
          2 * (x.tenths * 2 ^ (e + 1)) ≤ 2 * (x.mant * 10) + 2 ^ (e + 1)
            ∧ 2 * (x.mant * 10) ≤ 2 * (x.tenths * 2 ^ (e + 1)) + 2 ^ (e + 1))
      ∧ (∀ e : Nat, x.exp = Int.ofNat e → x.tenths = x.mant * 2 ^ e * 10) := by
  refine ⟨?_, ?_, ?_⟩
  · unfold formatF1
    rw [formatNat_digit _ (Nat.mod_lt _ (by decide))]
  · intro e he
    have : x.tenths = roundHalfEven (x.mant * 10) (2 ^ (e + 1)) := by
      unfold Float64.tenths; rw [he]
    rw [this]
    exact roundHalfEven_near _ _ (Nat.pos_pow_of_pos _ (by decide))
  · intro e he
    unfold Float64.tenths; rw [he]

/-- C1: for every daily sequence `weatherDaily` returns normally after
appending to standard output one line per entry, in sequence order; the line
of an entry is the name of the weekday of its `Dt` (seconds since the epoch,
read in the local zone, as `time.Unix(..).Weekday()` does), one space, its
`Temp.Day` with one decimal and `°F`.  The text appended has as many line
feeds as there are entries, so nothing for the empty sequence.  With the
zone at UTC, Monday 1 and Tuesday 2 January 2024 at 50.0 and 55.2 degrees give
`Monday 50.0°F` and `Tuesday 55.2°F`. -/
theorem C1_weatherDaily_lines (zone : Int → Int) (r : weatherResponse) (w : World) :
    weatherDaily zone r w
        = .ok () { w with stdout := w.stdout ++ joinLines (r.Daily.map (dailyLine zone)) }
      ∧ (r.Daily.map (dailyLine zone)).length = r.Daily.length
      ∧ lineFeeds (joinLines (r.Daily.map (dailyLine zone))) = r.Daily.length
      ∧ (∀ d : DailyEntry,
          dailyLine zone d
              = weekdayString (Weekday zone d.Dt) ++ " " ++ formatF1 d.Temp.Day ++ "°F"
            ∧ weekdayString (Weekday zone d.Dt) ∈ longDayNames
            ∧ lineFeeds (dailyLine zone d) = 0
            ∧ formatF1 d.Temp.Day
                = (if d.Temp.Day.neg then "-" else "") ++ formatNat (d.Temp.Day.tenths / 10)
                    ++ "." ++ String.singleton (digitChar (d.Temp.Day.tenths % 10)))
      ∧ weatherDaily zone { r with Daily := [] } w = .ok () w
      ∧ weatherDaily (fun _ => 0)
            { Daily := [{ Dt := 1704067200, Temp := { Day := ⟨false, 25, 1⟩ } },
                        { Dt := 1704153600, Temp := { Day := ⟨false, 3884354678607053, -46⟩ } }] }
            {}
          = .ok () { stdout := "Monday 50.0°F\nTuesday 55.2°F\n" } := by
  refine ⟨?_, by simp, ?_, ?_, ?_, by decide⟩
  · have h := weatherDailyLoop_eq zone r.Daily r.Daily.length 0 w (by simp)
    simpa [weatherDaily] using h
  · rw [lineFeeds_joinLines]
    · simp
    · intro l hl
      rcases List.mem_map.1 hl with ⟨d, _, rfl⟩
      exact lineFeeds_dailyLine zone d
  · intro d
    exact ⟨rfl, weekdayString_mem _ (Weekday_lt zone d.Dt), lineFeeds_dailyLine zone d,
      (formatF1_shape d.Temp.Day).1⟩
  · rfl

/-! ## The presenter of the current conditions -/

/-- C2: when the daily sequence is not empty, `weatherToday` returns normally
and appends to standard output exactly the two lines
`Current Temp: <Current.Temp with one decimal>°F` and
`Weather: <Daily[0].Summary>`; nothing else of the world changes, and the
response, a read-only argument, is not touched. -/
theorem C2_weatherToday_lines (r : weatherResponse) (w : World) (h : r.Daily ≠ []) :
    weatherToday r w
        = .ok () { w with stdout := w.stdout ++ (joinLines
            ["Current Temp: " ++ formatF1 r.Current.Temp ++ "°F",
             "Weather: " ++ (r.Daily.head h).Summary]) }
      ∧ lineFeeds (joinLines ["Current Temp: " ++ formatF1 r.Current.Temp ++ "°F",
             "Weather: " ++ (r.Daily.head h).Summary])
          = 2 + lineFeeds (r.Daily.head h).Summary := by
  constructor
  · obtain ⟨lat, lon, tz, off, cur, daily⟩ := r
    cases daily with
    | nil => exact absurd rfl h
    | cons d ds =>
      simp [weatherToday, print, joinLines, String.append_assoc]
  · simp only [joinLines, lineFeeds_append, lineFeeds_formatF1]
    have h1 : lineFeeds "\n" = 1 := by decide
    have h2 : lineFeeds "Current Temp: " = 0 := by decide
    have h3 : lineFeeds "°F" = 0 := by decide
    have h4 : lineFeeds "Weather: " = 0 := by decide
    have h5 : lineFeeds "" = 0 := by decide
    rw [h1, h2, h3, h4, h5]
    omega

/-- The example of C2: 72.3 degrees and the summary `Clear skies`. -/
theorem C2_weatherToday_lines_witness :
    ([({ Summary := "Clear skies" } : DailyEntry)] ≠ [])
      ∧ weatherToday
          { Current := { Temp := ⟨false, 5087660204045107, -46⟩ },
            Daily := [{ Summary := "Clear skies" }] } {}
        = .ok () { stdout := "Current Temp: 72.3°F\nWeather: Clear skies\n" } :=
  ⟨by decide,
    (C2_weatherToday_lines
      { Current := { Temp := ⟨false, 5087660204045107, -46⟩ },
        Daily := [{ Summary := "Clear skies" }] } {} (by decide)).1.trans (by decide)⟩

/-- C3: `weatherToday` reads `Daily[0]` without a check.  It returns normally
exactly when the daily sequence is not empty.  On an empty sequence the lookup
of index 0 finds nothing and the function panics with an index out of range,
after the temperature line and without any `Weather:` line. -/
theorem C3_weatherToday_index (r : weatherResponse) (w : World) :
    ((∃ w1, weatherToday r w = .ok () w1) ↔ r.Daily ≠ [])
      ∧ (r.Daily[0]? = none ↔ r.Daily = [])
      ∧ weatherToday { r with Daily := [] } w
          = .panic "runtime error: index out of range [0] with length 0"
              { w with stdout := w.stdout ++ "Current Temp: " ++ formatF1 r.Current.Temp ++ "°F\n" }
      ∧ ((∃ msg w1, weatherToday r w = .panic msg w1) ↔ r.Daily = []) := by
  refine ⟨?_, ?_, ?_, ?_⟩
  · cases hd : r.Daily with
    | nil => simp [weatherToday, hd]
    | cons d ds => simp [weatherToday, hd]
  · cases r.Daily <;> simp
  · simp [weatherToday, print, String.append_assoc]
  · cases hd : r.Daily with
    | nil => simp [weatherToday, hd]
    | cons d ds => simp [weatherToday, hd]

/-! ## The dispatcher -/

set_option maxRecDepth 20000 in
theorem printHelp_eq (w : World) : printHelp w = { w with stdout := w.stdout ++ helpText } := by
  have h : ("\nUsage: wcli <command>" ++ "\n" ++ ("A simple CLI weather app." ++ "\n")
      ++ ("USAGE:" ++ "\n")
      ++ ("  " ++ padRight10 "setup" ++ " " ++ "Configure your location and API key" ++ "\n")
      ++ ("  " ++ padRight10 "current" ++ " " ++ "Show current weather info" ++ "\n")
      ++ ("  " ++ padRight10 "help" ++ " " ++ "Display this help message" ++ "\n")
      ++ ("" ++ "\n")) = helpText := by decide
  rw [← h]
  simp only [printHelp, println, print, printCommands, commands, String.append_assoc]

/-- C4: when the first token after the program name is none of `setup`,
`current`, `daily`, `help` (compared exactly, so `Setup` and the empty token
are unknown too), `main` prints the unknown-argument message and exits with
status 1; the trace of file and network operations, the credential file, the
environment and the pending input are as before. -/
theorem C4_unknown_token (sys : Sys) (prog tok : String) (rest : List String) (w : World)
    (h : tok ≠ "setup" ∧ tok ≠ "current" ∧ tok ≠ "daily" ∧ tok ≠ "help") :
    main sys (prog :: tok :: rest) w = .exit 1 { w with stdout := w.stdout ++ unknownText }
      ∧ exitStatus (main sys (prog :: tok :: rest) w) = 1
      ∧ (main sys (prog :: tok :: rest) w).world.trace = w.trace
      ∧ (main sys (prog :: tok :: rest) w).world.envFile = w.envFile := by
  obtain ⟨h1, h2, h3, h4⟩ := h
  have hm : main sys (prog :: tok :: rest) w
      = .exit 1 { w with stdout := w.stdout ++ unknownText } := by
    simp [main, h1, h2, h3, h4, println, print, unknownText]
  rw [hm]
  exact ⟨rfl, rfl, rfl, rfl⟩

/-- The tokens `foo`, `Setup` and the empty token are unknown. -/
theorem C4_unknown_token_witness :
    (("foo" ≠ "setup" ∧ "foo" ≠ "current" ∧ "foo" ≠ "daily" ∧ "foo" ≠ "help")
      ∧ main {} ["wcli", "foo"] { envFile := some "LATITUDE=1\n" }
          = .exit 1 { envFile := some "LATITUDE=1\n", stdout := unknownText })
    ∧ main {} ["wcli", "Setup"] {} = .exit 1 { stdout := unknownText }
    ∧ main {} ["wcli", ""] {} = .exit 1 { stdout := unknownText } :=
  ⟨⟨by decide,
      (C4_unknown_token {} "wcli" "foo" [] { envFile := some "LATITUDE=1\n" } (by decide)).1⟩,
    (C4_unknown_token {} "wcli" "Setup" [] {} (by decide)).1,
    (C4_unknown_token {} "wcli" "" [] {} (by decide)).1⟩

/-- C5: with the program name alone in the argument vector, `main` prints the
help text, hands `No arguments provided.` to `log.Fatal` and so exits with
status 1.  Nothing but the help text reaches standard output, and the trace
of file and network operations, the credential file and the environment are
as before: the command switch is not reached. -/
theorem C5_no_arguments (sys : Sys) (prog : String) (w : World) :
    main sys [prog] w
        = .exit 1 { w with stdout := w.stdout ++ helpText,
                           stderr := w.stderr ++ ["No arguments provided."] }
      ∧ exitStatus (main sys [prog] w) ≠ 0
      ∧ (main sys [prog] w).world.trace = w.trace
      ∧ (main sys [prog] w).world.envFile = w.envFile
      ∧ main sys [] w = main sys [prog] w := by
  have hm : main sys [prog] w
      = .exit 1 { w with stdout := w.stdout ++ helpText,
                         stderr := w.stderr ++ ["No arguments provided."] } := by
    simp [main, logFatal, printHelp_eq]
  have h0 : main sys [] w = main sys [prog] w := by
    simp [main]
  rw [h0, hm]
  exact ⟨rfl, by simp [exitStatus], rfl, rfl, rfl⟩

/-! ## The credential file written by `setup` -/

theorem unicodeIsSpace_lf : unicodeIsSpace '\n' = true := by decide

theorem trimSpaceChars_concat_space (c : Char) (hc : unicodeIsSpace c = true) :
    ∀ l : List Char, trimSpaceChars (l ++ [c]) = trimSpaceChars l := by
  intro l
  induction l with
  | nil => simp [trimSpaceChars, hc]
  | cons x xs ih =>
    by_cases hx : unicodeIsSpace x = true
    · simpa [trimSpaceChars, hx] using ih
    · have h1 : List.dropWhile unicodeIsSpace (x :: xs ++ [c]) = x :: xs ++ [c] := by
        simp [List.dropWhile_cons, hx]
      have h2 : List.dropWhile unicodeIsSpace (x :: xs) = x :: xs := by
        simp [List.dropWhile_cons, hx]
      unfold trimSpaceChars
      rw [h1, h2]
      exact List.rdropWhile_concat_pos unicodeIsSpace (x :: xs) c hc

theorem trimSpaceChars_sublist (l : List Char) : (trimSpaceChars l).Sublist l :=
  (List.rdropWhile_prefix unicodeIsSpace (List.dropWhile unicodeIsSpace l)).sublist.trans
    (List.dropWhile_sublist _)

theorem rdropWhile_append_rtakeWhile (p : Char → Bool) (l : List Char) :
    l.rdropWhile p ++ l.rtakeWhile p = l := by
  simp [List.rdropWhile, List.rtakeWhile, ← List.reverse_append]

/-- What `strings.TrimSpace` removes is white space at the two ends, and what
it leaves neither begins nor ends with white space. -/
theorem trimSpaceChars_spec (l : List Char) :
    ∃ pre post, l = pre ++ trimSpaceChars l ++ post
      ∧ (∀ c ∈ pre, unicodeIsSpace c = true) ∧ (∀ c ∈ post, unicodeIsSpace c = true)
      ∧ (∀ c, (trimSpaceChars l).head? = some c → unicodeIsSpace c = false)
      ∧ (∀ c, (trimSpaceChars l).getLast? = some c → unicodeIsSpace c = false) := by
  refine ⟨l.takeWhile unicodeIsSpace, (l.dropWhile unicodeIsSpace).rtakeWhile unicodeIsSpace,
    ?_, ?_, ?_, ?_, ?_⟩
  · unfold trimSpaceChars
    rw [List.append_assoc, rdropWhile_append_rtakeWhile, List.takeWhile_append_dropWhile]
  · intro c hc
    exact List.mem_takeWhile_imp hc
  · intro c hc
    unfold List.rtakeWhile at hc
    rw [List.mem_reverse] at hc
    exact List.mem_takeWhile_imp hc
  · intro c hc
    obtain ⟨t, ht⟩ := List.rdropWhile_prefix unicodeIsSpace (l.dropWhile unicodeIsSpace)
    have h1 := List.head?_dropWhile_not unicodeIsSpace l
    unfold trimSpaceChars at hc
    cases hr : List.rdropWhile unicodeIsSpace (List.dropWhile unicodeIsSpace l) with
    | nil => rw [hr] at hc; simp at hc
    | cons y ys =>
      rw [hr] at hc ht
      simp only [List.head?_cons, Option.some.injEq] at hc
      rw [← ht] at h1
      simpa [hc] using h1
  · intro c hc
    unfold trimSpaceChars at hc
    have hne : List.rdropWhile unicodeIsSpace (List.dropWhile unicodeIsSpace l) ≠ [] := by
      intro h; rw [h] at hc; simp at hc
    have h1 := List.rdropWhile_last_not unicodeIsSpace (List.dropWhile unicodeIsSpace l) hne
    rw [List.getLast?_eq_getLast _ hne] at hc
    simp only [Option.some.injEq] at hc
    rw [hc] at h1
    simpa using h1

/-- What a run of `setup` without I/O error leaves behind. -/
theorem setup_eq (sys : Sys) (w : World) (hc : sys.createErr = none)
    (hw : ∀ k, sys.writeErr k = none) :
    setup sys w = .ok ()
      { stdin := afterReplies 3 w.stdin,
        stdout := w.stdout ++ "Enter LATITUDE: " ++ "Enter LONGITUDE: " ++ "Enter API_KEY: "
          ++ ".env file created successfully.\n",
        stderr := w.stderr,
        envFile := some (credentialFile (reply 0 w.stdin) (reply 1 w.stdin) (reply 2 w.stdin)),
        environ := w.environ,
        trace := w.trace ++
          [.fileCreate ".env" true,
           .fileWrite ".env" ("LATITUDE=" ++ reply 0 w.stdin ++ "\n"),
           .fileWrite ".env" ("LONGITUDE=" ++ reply 1 w.stdin ++ "\n"),
           .fileWrite ".env" ("API_KEY=" ++ reply 2 w.stdin ++ "\n"),
           .fileClose ".env"] } := by
  simp [setup, setupLoop, prompts, hc, hw, fileWrite, record, print, println, credentialFile,
    reply, afterReplies, String.append_assoc]
  rw [show "\nLONGITUDE=" = "\n" ++ "LONGITUDE=" from rfl,
    show "\nAPI_KEY=" = "\n" ++ "API_KEY=" from rfl]
  simp only [String.append_assoc]

theorem readString_line (a rest : List Char) (h : '\n' ∉ a) :
    readString '\n' (a ++ '\n' :: rest) = (a ++ ['\n'], rest) := by
  induction a with
  | nil => simp [readString]
  | cons x xs ih =>
    have hx : x ≠ '\n' := fun e => h (by simp [e])
    have hxs : '\n' ∉ xs := fun e => h (List.mem_cons_of_mem _ e)
    simp [readString, hx, ih hxs]

theorem TrimSpace_line (a : String) : TrimSpace ⟨a.data ++ ['\n']⟩ = TrimSpace a := by
  simp only [TrimSpace]
  rw [trimSpaceChars_concat_space '\n' unicodeIsSpace_lf]

theorem replies_of_lines (a b c : String) (rest : List Char)
    (ha : '\n' ∉ a.data) (hb : '\n' ∉ b.data) (hc : '\n' ∉ c.data) :
    reply 0 (a.data ++ '\n' :: (b.data ++ '\n' :: (c.data ++ '\n' :: rest))) = TrimSpace a
      ∧ reply 1 (a.data ++ '\n' :: (b.data ++ '\n' :: (c.data ++ '\n' :: rest))) = TrimSpace b
      ∧ reply 2 (a.data ++ '\n' :: (b.data ++ '\n' :: (c.data ++ '\n' :: rest))) = TrimSpace c
      ∧ afterReplies 3 (a.data ++ '\n' :: (b.data ++ '\n' :: (c.data ++ '\n' :: rest))) = rest := by
  simp [reply, afterReplies, readString_line, ha, hb, hc, TrimSpace_line]

theorem TrimSpace_no_lf (a : String) (h : '\n' ∉ a.data) : lineFeeds (TrimSpace a) = 0 := by
  simp only [lineFeeds, TrimSpace, List.count_eq_zero]
  exact fun e => h ((trimSpaceChars_sublist a.data).subset e)

/-- C7: when `os.Create` and the three writes succeed and the three lines
`a`, `b`, `c` are entered, `setup` returns normally and the credential file
holds exactly `LATITUDE=trim(a)`, `LONGITUDE=trim(b)`, `API_KEY=trim(c)`,
each closed by a line feed, whatever it held before; the text has three line
feeds.  `trim` takes away white space at the two ends only, and no value is
checked against any format. -/
theorem C7_setup_file (sys : Sys) (w : World) (a b c : String) (rest : List Char)
    (hc : sys.createErr = none) (hw : ∀ k, sys.writeErr k = none)
    (ha : '\n' ∉ a.data) (hb : '\n' ∉ b.data) (hcc : '\n' ∉ c.data)
    (hin : w.stdin = a.data ++ '\n' :: (b.data ++ '\n' :: (c.data ++ '\n' :: rest))) :
    (∃ w1, setup sys w = .ok () w1
      ∧ w1.envFile = some ("LATITUDE=" ++ TrimSpace a ++ "\n" ++ "LONGITUDE=" ++ TrimSpace b
          ++ "\n" ++ "API_KEY=" ++ TrimSpace c ++ "\n")
      ∧ w1.stdin = rest)
    ∧ lineFeeds ("LATITUDE=" ++ TrimSpace a ++ "\n" ++ "LONGITUDE=" ++ TrimSpace b
          ++ "\n" ++ "API_KEY=" ++ TrimSpace c ++ "\n") = 3
    ∧ (∀ s : String, ∃ pre post, s.data = pre ++ (TrimSpace s).data ++ post
        ∧ (∀ x ∈ pre, unicodeIsSpace x = true) ∧ (∀ x ∈ post, unicodeIsSpace x = true)
        ∧ (∀ x, (TrimSpace s).data.head? = some x → unicodeIsSpace x = false)
        ∧ (∀ x, (TrimSpace s).data.getLast? = some x → unicodeIsSpace x = false)) := by
  obtain ⟨r0, r1, r2, r3⟩ := replies_of_lines a b c rest ha hb hcc
  refine ⟨⟨_, setup_eq sys w hc hw, ?_, ?_⟩, ?_, ?_⟩
  · simp only [hin, r0, r1, r2]
    rfl
  · simp only [hin, r3]
  · simp only [lineFeeds_append, TrimSpace_no_lf a ha, TrimSpace_no_lf b hb,
      TrimSpace_no_lf c hcc]
    have h1 : lineFeeds "\n" = 1 := by decide
    have h2 : lineFeeds "LATITUDE=" = 0 := by decide
    have h3 : lineFeeds "LONGITUDE=" = 0 := by decide
    have h4 : lineFeeds "API_KEY=" = 0 := by decide
    rw [h1, h2, h3, h4]
  · intro s
    exact trimSpaceChars_spec s.data

/-- A latitude that is no number is stored as it is, and what the file held
before is gone. -/
theorem C7_setup_file_witness :
    ∃ w1, setup {} { stdin := " abc \n-71.06\nk e y\n".data, envFile := some "OLD=1\n" }
          = .ok () w1
      ∧ w1.envFile = some "LATITUDE=abc\nLONGITUDE=-71.06\nAPI_KEY=k e y\n" := by
  obtain ⟨⟨w1, h1, h2, _⟩, _⟩ :=
    C7_setup_file {} { stdin := " abc \n-71.06\nk e y\n".data, envFile := some "OLD=1\n" }
      " abc " "-71.06" "k e y" [] rfl (fun _ => rfl) (by decide) (by decide) (by decide) rfl
  exact ⟨w1, h1, h2.trans (by decide)⟩

/-! ## The request URL -/

theorem splitOn_of_not_mem (sep : Char) : ∀ a : List Char, sep ∉ a → splitOn sep a = [a] := by
  intro a
  induction a with
  | nil => intro _; rfl
  | cons x xs ih =>
    intro h
    have hx : x ≠ sep := fun e => h (by simp [e])
    have hxs : sep ∉ xs := fun e => h (List.mem_cons_of_mem _ e)
    simp [splitOn, hx, ih hxs]

theorem splitOn_append_sep (sep : Char) (rest : List Char) :
    ∀ a : List Char, sep ∉ a → splitOn sep (a ++ sep :: rest) = a :: splitOn sep rest := by
  intro a
  induction a with
  | nil => intro _; simp [splitOn]
  | cons x xs ih =>
    intro h
    have hx : x ≠ sep := fun e => h (by simp [e])
    have hxs : sep ∉ xs := fun e => h (List.mem_cons_of_mem _ e)
    simp [splitOn, hx, ih hxs]

theorem splitOn_piece (sep : Char) :
    ∀ l : List Char, ∀ p ∈ splitOn sep l, sep ∉ p ∧ ∀ c ∈ p, c ∈ l := by
  intro l
  induction l with
  | nil => intro p hp; simp [splitOn] at hp; subst hp; simp
  | cons x xs ih =>
    intro p hp
    unfold splitOn at hp
    by_cases hx : x = sep
    · simp only [hx, if_true, List.mem_cons] at hp
      rcases hp with rfl | hp
      · simp
      · exact ⟨(ih p hp).1, fun c hc => List.mem_cons_of_mem _ ((ih p hp).2 c hc)⟩
    · simp only [hx, if_false] at hp
      cases hs : splitOn sep xs with
      | nil => 
        rw [hs] at hp
        simp only [List.mem_singleton] at hp
        subst hp
        exact ⟨by simpa using fun e => hx e.symm, by simp⟩
      | cons q qs =>
        rw [hs] at hp
        simp only [List.mem_cons] at hp
        have hq := ih q (by rw [hs]; exact List.mem_cons_self _ _)
        rcases hp with rfl | hp
        · refine ⟨?_, ?_⟩
          · intro e
            rcases List.mem_cons.1 e with e | e
            · exact hx e.symm
            · exact hq.1 e
          · intro c hc
            rcases List.mem_cons.1 hc with rfl | hc
            · exact List.mem_cons_self _ _
            · exact List.mem_cons_of_mem _ (hq.2 c hc)
        · have := ih p (by rw [hs]; exact List.mem_cons_of_mem _ hp)
          exact ⟨this.1, fun c hc => List.mem_cons_of_mem _ (this.2 c hc)⟩

theorem parsePairs_mem : ∀ (ps : List (List Char)) (kvs : List (String × String)),
    parsePairs ps = some kvs → ∀ kv ∈ kvs, ∃ p ∈ ps, parsePair p = some kv := by
  intro ps
  induction ps with
  | nil =>
    intro kvs h kv hkv
    simp only [parsePairs, Option.some.injEq] at h
    subst h
    simp at hkv
  | cons p ps ih =>
    intro kvs h kv hkv
    unfold parsePairs at h
    cases h1 : parsePair p with
    | none => simp [h1] at h
    | some kv1 =>
      cases h2 : parsePairs ps with
      | none => simp [h1, h2] at h
      | some kvs2 =>
        simp only [h1, h2, Option.some.injEq] at h
        subst h
        rcases List.mem_cons.1 hkv with rfl | hkv
        · exact ⟨p, List.mem_cons_self _ _, h1⟩
        · obtain ⟨q, hq, hq2⟩ := ih kvs2 h2 kv hkv
          exact ⟨q, List.mem_cons_of_mem _ hq, hq2⟩

theorem parsePair_value (p : List Char) (kv : String × String) (h : parsePair p = some kv) :
    '=' ∉ kv.2.data ∧ ∀ c ∈ kv.2.data, c ∈ p := by
  unfold parsePair at h
  split at h
  · rename_i n v hs
    simp only [Option.some.injEq] at h
    subst h
    exact splitOn_piece '=' p v (by rw [hs]; simp)
  · simp at h

/-- Every value the strict reader returns is free of `&`, `=`, `#` and white
space. -/
theorem parseURL_values (url base : String) (params : List (String × String))
    (h : parseURL url = some (base, params)) : ∀ kv ∈ params, plainValue kv.2 := by
  unfold parseURL at h
  split at h
  · simp at h
  · rename_i hsp
    simp only at h
    split at h
    · simp at h
    · rename_i q query hq
      split at h
      · simp at h
      · rename_i ps hps
        simp only [Option.some.injEq, Prod.mk.injEq] at h
        obtain ⟨_, rfl⟩ := h
        intro kv hkv
        obtain ⟨p, hp, hpk⟩ := parsePairs_mem _ _ hps kv hkv
        obtain ⟨hamp, hsub⟩ := splitOn_piece '&' query p hp
        obtain ⟨heq, hsub2⟩ := parsePair_value p kv hpk
        have hquery : ∀ c ∈ query, c ∈ List.takeWhile (fun c => c != '#') url.data := by
          intro c hc
          have : c ∈ q :: query := List.mem_cons_of_mem _ hc
          rw [← hq] at this
          exact (List.dropWhile_sublist _).subset this
        intro c hc
        have hcp := hsub2 c hc
        have hcm := hquery c (hsub c hcp)
        refine ⟨?_, ?_, ?_, ?_⟩
        · rintro rfl; exact hamp hcp
        · rintro rfl; exact heq hc
        · have := List.mem_takeWhile_imp hcm
          simpa using this
        · have hu : c ∈ url.data := (List.takeWhile_sublist _).subset hcm
          simp only [List.any_eq_true, not_exists, not_and, Bool.not_eq_true] at hsp
          exact hsp c hu

theorem requestURL_data (lat lon key : String) :
    (requestURL lat lon key).data
      = endpoint.data ++ '?' :: ("lat".data ++ '=' :: (lat.data ++ '&' :: ("lon".data ++ '=' ::
          (lon.data ++ '&' :: ("units".data ++ '=' :: ("imperial".data ++ '&' ::
            ("exclude".data ++ '=' :: ("minutely,hourly,alerts".data ++ '&' ::
              ("appid".data ++ '=' :: key.data))))))))) := by
  simp only [requestURL, String.data_append]
  simp [endpoint]

theorem parsePair_kv (n v : List Char) (hn : '=' ∉ n) (hv : '=' ∉ v) :
    parsePair (n ++ '=' :: v) = some (⟨n⟩, ⟨v⟩) := by
  unfold parsePair
  rw [splitOn_append_sep '=' v n hn, splitOn_of_not_mem '=' v hv]

theorem not_mem_name_value (sep : Char) (n v : List Char) (hs : sep ≠ '=') (hn : sep ∉ n)
    (hv : sep ∉ v) : sep ∉ n ++ '=' :: v := by
  simp only [List.mem_append, List.mem_cons, not_or]
  exact ⟨hn, hs, hv⟩

theorem splitOn_param (n v rest : List Char) (hn : '&' ∉ n) (hv : '&' ∉ v) :
    splitOn '&' (n ++ '=' :: (v ++ '&' :: rest)) = (n ++ '=' :: v) :: splitOn '&' rest := by
  have h : n ++ '=' :: (v ++ '&' :: rest) = (n ++ '=' :: v) ++ '&' :: rest := by simp
  rw [h, splitOn_append_sep '&' rest _ (not_mem_name_value '&' n v (by decide) hn hv)]

/-- On plain credentials the strict reader finds the endpoint and the five
parameters. -/
theorem parseURL_requestURL (lat lon key : String)
    (hlat : plainValue lat) (hlon : plainValue lon) (hkey : plainValue key) :
    parseURL (requestURL lat lon key)
      = some (endpoint, [("lat", lat), ("lon", lon), ("units", "imperial"),
          ("exclude", "minutely,hourly,alerts"), ("appid", key)]) := by
  have a1 : '&' ∉ lat.data := fun e => (hlat _ e).1 rfl
  have a2 : '&' ∉ lon.data := fun e => (hlon _ e).1 rfl
  have a3 : '&' ∉ key.data := fun e => (hkey _ e).1 rfl
  have e1 : '=' ∉ lat.data := fun e => (hlat _ e).2.1 rfl
  have e2 : '=' ∉ lon.data := fun e => (hlon _ e).2.1 rfl
  have e3 : '=' ∉ key.data := fun e => (hkey _ e).2.1 rfl
  have hne : ('&' : Char) ≠ '=' := by decide
  have hplain : ∀ c ∈ (requestURL lat lon key).data, c ≠ '#' ∧ unicodeIsSpace c = false := by
    rw [requestURL_data]
    simp only [List.forall_mem_append, List.forall_mem_cons]
    exact ⟨by decide, by decide, by decide, by decide,
      fun c hc => ⟨(hlat _ hc).2.2.1, (hlat _ hc).2.2.2⟩, by decide, by decide, by decide,
      fun c hc => ⟨(hlon _ hc).2.2.1, (hlon _ hc).2.2.2⟩, by decide, by decide, by decide,
      by decide, by decide, by decide, by decide, by decide, by decide, by decide, by decide,
      fun c hc => ⟨(hkey _ hc).2.2.1, (hkey _ hc).2.2.2⟩⟩
  have hany : (requestURL lat lon key).data.any unicodeIsSpace = false := by
    rw [List.any_eq_false]
    intro c hc
    simp [(hplain c hc).2]
  have hmain : List.takeWhile (fun c => c != '#') (requestURL lat lon key).data
      = (requestURL lat lon key).data := by
    rw [List.takeWhile_eq_self_iff]
    intro c hc
    simpa using (hplain c hc).1
  have hE : ∀ c ∈ endpoint.data, (c != '?') = true := by decide
  unfold parseURL
  simp only [hany, hmain]
  rw [requestURL_data, List.dropWhile_append_of_pos hE, List.takeWhile_append_of_pos hE]
  simp only [bne_self_eq_false, Bool.false_eq_true, not_false_eq_true,
    List.dropWhile_cons_of_neg, List.takeWhile_cons_of_neg, List.append_nil]
  rw [splitOn_param _ _ _ (by decide) a1, splitOn_param _ _ _ (by decide) a2,
    splitOn_param _ _ _ (by decide) (by decide), splitOn_param _ _ _ (by decide) (by decide),
    splitOn_of_not_mem '&' _ (not_mem_name_value '&' _ _ hne (by decide) a3)]
  simp only [parsePairs, parsePair_kv _ _ (by decide : '=' ∉ "lat".data) e1,
    parsePair_kv _ _ (by decide : '=' ∉ "lon".data) e2,
    parsePair_kv _ _ (by decide : '=' ∉ "units".data) (by decide : '=' ∉ "imperial".data),
    parsePair_kv _ _ (by decide : '=' ∉ "exclude".data)
      (by decide : '=' ∉ "minutely,hourly,alerts".data),
    parsePair_kv _ _ (by decide : '=' ∉ "appid".data) e3]
  simp only [↓reduceIte]

/-- After a successful `godotenv.Load`, the next operation of `getWeather` is
the request for the URL built from the three environment values. -/
theorem getWeather_requests (sys : Sys) (w : World) (h : (godotenv.Load sys w).2 = none) :
    ∃ tail, (getWeather sys w).world.trace
      = (godotenv.Load sys w).1.trace
        ++ .httpGet (requestURL (Getenv (godotenv.Load sys w).1.environ "LATITUDE")
            (Getenv (godotenv.Load sys w).1.environ "LONGITUDE")
            (Getenv (godotenv.Load sys w).1.environ "API_KEY")) :: tail := by
  unfold getWeather
  rcases hL : godotenv.Load sys w with ⟨w1, err⟩
  rw [hL] at h
  simp only at h
  subst h
  simp only
  cases sys.httpGet _ with
  | error e => exact ⟨[], by simp [logFatal, record, Outcome.world]⟩
  | ok resp =>
    simp only
    cases resp.body with
    | error e => exact ⟨[.bodyRead], by simp [logFatal, record, Outcome.world]⟩
    | ok body =>
      simp only
      cases sys.decode body with
      | error e => exact ⟨[.bodyRead], by simp [logFatal, record, Outcome.world]⟩
      | ok d => exact ⟨[.bodyRead, .bodyClose], by simp [record, Outcome.world]⟩

/-- C8: the URL `getWeather` requests is the fixed One Call endpoint followed
by the query `lat=<lat>&lon=<lon>&units=imperial&exclude=minutely,hourly,alerts&appid=<key>`,
the three credentials standing in it exactly as they are.  Read strictly, the
URL has the endpoint as address and exactly the five parameters `lat`, `lon`,
`units`, `exclude`, `appid` with these values if and only if none of the
three credentials contains `&`, `=`, `#` or white space; a latitude `1&x=2`,
for one, yields a sixth parameter. -/
theorem C8_request_url (lat lon key : String) :
    requestURL lat lon key
        = endpoint ++ "?" ++ "lat=" ++ lat ++ "&" ++ "lon=" ++ lon ++ "&" ++ "units=imperial"
            ++ "&" ++ "exclude=minutely,hourly,alerts" ++ "&" ++ "appid=" ++ key
      ∧ (parseURL (requestURL lat lon key)
            = some (endpoint, [("lat", lat), ("lon", lon), ("units", "imperial"),
                ("exclude", "minutely,hourly,alerts"), ("appid", key)])
          ↔ plainValue lat ∧ plainValue lon ∧ plainValue key)
      ∧ parseURL (requestURL "1&x=2" "0" "k")
          = some (endpoint, [("lat", "1"), ("x", "2"), ("lon", "0"), ("units", "imperial"),
              ("exclude", "minutely,hourly,alerts"), ("appid", "k")])
      ∧ (∀ (sys : Sys) (w : World), (godotenv.Load sys w).2 = none →
          .httpGet (requestURL (Getenv (godotenv.Load sys w).1.environ "LATITUDE")
              (Getenv (godotenv.Load sys w).1.environ "LONGITUDE")
              (Getenv (godotenv.Load sys w).1.environ "API_KEY"))
            ∈ (getWeather sys w).world.trace) := by
  refine ⟨?_, ⟨?_, ?_⟩, ?_, ?_⟩
  · apply String.ext
    rw [requestURL_data]
    simp [String.data_append, endpoint]
  · intro h
    have hv := parseURL_values _ _ _ h
    exact ⟨hv ("lat", lat) (by simp), hv ("lon", lon) (by simp), hv ("appid", key) (by simp)⟩
  · rintro ⟨h1, h2, h3⟩
    exact parseURL_requestURL lat lon key h1 h2 h3
  · rfl
  · intro sys w h
    obtain ⟨tail, ht⟩ := getWeather_requests sys w h
    rw [ht]
    simp

/-! ## Resources on the fatal paths -/

/-- C9 (the code departs from the claim): `setup` dies in `log.Fatalf` when a
write fails, and `getWeather` in `log.Fatalln` when the body cannot be read
or decoded.  `os.Exit` does not run deferred calls, so the process ends with
the file created and never closed, and with the body read and never closed.
A run without failure does close both. -/
theorem C9_fatal_paths_skip_close :
    setup { writeErr := fun _ => some (0, "no space left on device") } { stdin := "1\n2\n3\n".data }
        = .exit 1 { stdin := "2\n3\n".data, stdout := "Enter LATITUDE: ",
                    stderr := ["Failed to write to file: no space left on device"],
                    envFile := some "",
                    trace := [.fileCreate ".env" true, .fileWrite ".env" ""] }
      ∧ getWeather { httpGet := fun _ => .ok { body := .error "unexpected EOF" } }
          { envFile := some "LATITUDE=1\nLONGITUDE=2\nAPI_KEY=k\n" }
        = .exit 1 { stderr := ["unexpected EOF"],
                    envFile := some "LATITUDE=1\nLONGITUDE=2\nAPI_KEY=k\n",
                    environ := [("API_KEY", "k"), ("LONGITUDE", "2"), ("LATITUDE", "1")],
                    trace := [.fileLoad ".env", .httpGet (requestURL "1" "2" "k"), .bodyRead] }
      ∧ getWeather { httpGet := fun _ => .ok { body := .ok "<html>" },
                     decode := fun _ => .error "invalid character '<' looking for beginning of value" }
          { envFile := some "LATITUDE=1\nLONGITUDE=2\nAPI_KEY=k\n" }
        = .exit 1 { stderr := ["invalid character '<' looking for beginning of value"],
                    envFile := some "LATITUDE=1\nLONGITUDE=2\nAPI_KEY=k\n",
                    environ := [("API_KEY", "k"), ("LONGITUDE", "2"), ("LATITUDE", "1")],
                    trace := [.fileLoad ".env", .httpGet (requestURL "1" "2" "k"), .bodyRead] }
      ∧ (setup {} { stdin := "1\n2\n3\n".data }).world.trace
        = [.fileCreate ".env" true, .fileWrite ".env" "LATITUDE=1\n",
           .fileWrite ".env" "LONGITUDE=2\n", .fileWrite ".env" "API_KEY=3\n", .fileClose ".env"]
      ∧ (getWeather { httpGet := fun _ => .ok { body := .ok "" }, decode := fun _ => .ok {} }
          { envFile := some "LATITUDE=1\nLONGITUDE=2\nAPI_KEY=k\n" }).world.trace
        = [.fileLoad ".env", .httpGet (requestURL "1" "2" "k"), .bodyRead, .bodyClose] := by
  refine ⟨by decide, by decide, by decide, by decide, by decide⟩

/-! ## The help table -/

/-- C10 (the code departs from the claim): `help` prints the usage text and
`main` returns, so the status is 0 and no file or network operation takes
place; but the table has the three rows `setup`, `current`, `help` only,
while `main` also routes `daily` to a handler. -/
theorem C10_help_table_misses_daily (sys : Sys) (w : World) :
    main sys ["wcli", "help"] w = .ok () { w with stdout := w.stdout ++ helpText }
      ∧ exitStatus (main sys ["wcli", "help"] w) = 0
      ∧ commands.map (fun cmd => cmd.1) = ["setup", "current", "help"]
      ∧ "daily" ∉ commands.map (fun cmd => cmd.1)
      ∧ main sys ["wcli", "daily"] w
          = (match getWeather sys w with
              | .ok weatherData w1 => weatherDaily sys.zone weatherData w1
              | .exit code w1 => .exit code w1
              | .panic msg w1 => .panic msg w1)
      ∧ main {} ["wcli", "daily"] {}
          = .exit 1 { stderr := ["Error Loading .env File. Run wcli help for setup command."],
                      trace := [.fileLoad ".env"] } := by
  have hm : main sys ["wcli", "help"] w = .ok () { w with stdout := w.stdout ++ helpText } := by
    simp [main, printHelp_eq]
  rw [hm]
  refine ⟨rfl, rfl, by decide, by decide, ?_, by decide⟩
  simp [main]

/-! ## The parser of the credential file -/

namespace godotenv

/-! ### The parser never runs out of fuel -/

theorem getStatementStart_some : ∀ (src : List Char) (b : Bool) (cut : List Char),
    getStatementStart b src = some cut → cut.length ≤ src.length := by
  intro src
  induction src with
  | nil => intro b cut h; cases b <;> simp [getStatementStart] at h
  | cons c cs ih =>
    intro b cut h
    cases b with
    | false =>
      simp only [getStatementStart] at h
      split at h
      · exact Nat.le_succ_of_le (ih _ _ h)
      · split at h
        · exact Nat.le_succ_of_le (ih _ _ h)
        · simp only [Option.some.injEq] at h
          subst h
          exact Nat.le_refl _
    | true =>
      simp only [getStatementStart] at h
      split at h
      · exact Nat.le_succ_of_le (ih _ _ h)
      · exact Nat.le_succ_of_le (ih _ _ h)

theorem keyLoop_ok (src : List Char) : ∀ (l acc key rest : List Char),
    keyLoop src acc l = .ok (key, rest) →
      rest.length < l.length ∨ (rest = src ∧ ∀ c ∈ l, keyCharOk c = true) := by
  intro l
  induction l with
  | nil =>
    intro acc key rest h
    simp only [keyLoop, Except.ok.injEq, Prod.mk.injEq] at h
    exact Or.inr ⟨h.2.symm, by simp⟩
  | cons c cs ih =>
    intro acc key rest h
    simp only [keyLoop] at h
    split at h
    · simp only [Except.ok.injEq, Prod.mk.injEq] at h
      exact Or.inl (by rw [← h.2]; simp)
    · split at h
      · rename_i hok
        rcases ih _ _ _ h with h1 | ⟨h1, h2⟩
        · exact Or.inl (by simp only [List.length_cons]; omega)
        · refine Or.inr ⟨h1, ?_⟩
          intro x hx
          rcases List.mem_cons.1 hx with rfl | hx
          · exact hok
          · exact h2 x hx
      · simp at h

theorem dropWhile_isSpace_fixed (X : List Char) :
    (X.dropWhile isSpace).dropWhile isSpace = X.dropWhile isSpace ∧
      ∀ c0 tail, X.dropWhile isSpace = c0 :: tail → isSpace c0 = false := by
  induction X with
  | nil => simp
  | cons x xs ih =>
    by_cases hx : isSpace x = true
    · simpa [List.dropWhile_cons, hx] using ih
    · simp only [List.dropWhile_cons, hx, Bool.false_eq_true, if_false]
      refine ⟨trivial, ?_⟩
      intro c0 tail h
      simp only [List.cons.injEq] at h
      rw [← h.1]
      simpa using hx

/-- What `locateKeyName` leaves is shorter than its input, or it is the input
without leading blanks and starts with a character of a key. -/
theorem locateKeyName_ok (cut key left : List Char) (h : locateKeyName cut = .ok (key, left)) :
    left.length < cut.length ∨ (left.length ≤ cut.length
      ∧ ∃ c0 tail, left = c0 :: tail ∧ keyCharOk c0 = true ∧ isSpace c0 = false) := by
  unfold locateKeyName at h
  simp only at h
  generalize hsrc : (if "export".data.isPrefixOf (cut.dropWhile isSpace) = true then
      if Option.map isSpace (List.drop 6 (cut.dropWhile isSpace)).head? = some true then
        List.dropWhile isSpace (List.drop 6 (cut.dropWhile isSpace))
      else cut.dropWhile isSpace
    else cut.dropWhile isSpace) = src at h
  have hX : ∃ X : List Char, src = X.dropWhile isSpace ∧ X.length ≤ cut.length := by
    have h1 : (cut.dropWhile isSpace).length ≤ cut.length := (List.dropWhile_sublist _).length_le
    rw [← hsrc]
    split
    · split
      · exact ⟨_, rfl, by simp only [List.length_drop]; omega⟩
      · exact ⟨cut, rfl, Nat.le_refl _⟩
    · exact ⟨cut, rfl, Nat.le_refl _⟩
  obtain ⟨X, hXs, hXl⟩ := hX
  have hsl : src.length ≤ cut.length := by
    rw [hXs]; exact Nat.le_trans (List.dropWhile_sublist _).length_le hXl
  cases hk : keyLoop src [] src with
  | error e => rw [hk] at h; simp at h
  | ok kr =>
    obtain ⟨k, r⟩ := kr
    rw [hk] at h
    simp only at h
    split at h
    · simp at h
    · rename_i hne
      simp only [Except.ok.injEq, Prod.mk.injEq] at h
      obtain ⟨_, hleft⟩ := h
      have hrl : (r.dropWhile isSpace).length ≤ r.length := (List.dropWhile_sublist _).length_le
      rcases keyLoop_ok src src [] k r hk with h1 | ⟨h1, h2⟩
      · exact Or.inl (by rw [← hleft]; omega)
      · right
        have hfix := dropWhile_isSpace_fixed X
        rw [← hXs] at hfix
        rw [h1, hfix.1] at hleft
        refine ⟨by rw [← hleft]; exact hsl, ?_⟩
        cases hs : src with
        | nil => rw [hs] at hne; simp at hne
        | cons c0 tail =>
          exact ⟨c0, tail, by rw [← hleft, hs], h2 c0 (by rw [hs]; simp), hfix.2 c0 tail hs⟩

theorem findClose_shorter (q : Char) : ∀ (l : List Char) (prev : Char) (acc pre rest : List Char),
    findClose q prev acc l = some (pre, rest) → rest.length < l.length := by
  intro l
  induction l with
  | nil => intro prev acc pre rest h; simp [findClose] at h
  | cons c cs ih =>
    intro prev acc pre rest h
    simp only [findClose] at h
    split at h
    · simp only [Option.some.injEq, Prod.mk.injEq] at h
      rw [← h.2]; simp
    · have := ih _ _ _ _ h
      simp only [List.length_cons]; omega

/-- What `extractVarValue` leaves is no longer than its input, and shorter
when the input starts with a character of a key that is no blank. -/
theorem extractVarValue_ok (src value rest : List Char) (vars : List (List Char × List Char))
    (h : extractVarValue src vars = .ok (value, rest)) :
    rest.length ≤ src.length ∧ (∀ c0 tail, src = c0 :: tail → keyCharOk c0 = true →
      isSpace c0 = false → rest.length < src.length) := by
  cases src with
  | nil =>
    simp only [extractVarValue, Except.ok.injEq, Prod.mk.injEq] at h
    rw [← h.2]
    exact ⟨Nat.le_refl _, fun c0 tail e => by simp at e⟩
  | cons q tail =>
    simp only [extractVarValue] at h
    split at h
    · have hlt : rest.length < (q :: tail).length := by
        cases hf : findClose q q [q] tail with
        | none => rw [hf] at h; simp at h
        | some pr =>
          obtain ⟨pre, r⟩ := pr
          rw [hf] at h
          have hr := findClose_shorter q tail q [q] pre r hf
          simp only at h
          split at h <;>
            (simp only [Except.ok.injEq, Prod.mk.injEq] at h
             rw [← h.2]; simp only [List.length_cons]; omega)
      exact ⟨Nat.le_of_lt hlt, fun _ _ _ _ _ => hlt⟩
    · have hle : (List.dropWhile (fun c => !isLineEnd c) (q :: tail)).length
          ≤ (q :: tail).length := (List.dropWhile_sublist _).length_le
      have hrest : rest = List.dropWhile (fun c => !isLineEnd c) (q :: tail) := by
        split at h <;>
          (simp only [Except.ok.injEq, Prod.mk.injEq] at h
           exact h.2.symm)
      refine ⟨by rw [hrest]; exact hle, ?_⟩
      intro c0 tl e hk hsp
      simp only [List.cons.injEq] at e
      obtain ⟨rfl, rfl⟩ := e
      have hq : isLineEnd q = false := by
        cases hq : isLineEnd q with
        | false => rfl
        | true =>
          simp only [isLineEnd, Bool.or_eq_true, beq_iff_eq] at hq
          rcases hq with rfl | rfl
          · exact absurd hk (by decide)
          · exact absurd hsp (by decide)
      have hle2 : (List.dropWhile (fun c => !isLineEnd c) tail).length ≤ tail.length :=
        (List.dropWhile_sublist _).length_le
      rw [hrest]
      simp only [List.dropWhile_cons, hq, Bool.not_false, if_true, List.length_cons]
      omega

/-- Fuel above the length of the input is never used up. -/
theorem parseLoop_total : ∀ (fuel : Nat) (src : List Char) (out : List (List Char × List Char)),
    src.length < fuel → (parseLoop fuel src out).isSome = true := by
  intro fuel
  induction fuel with
  | zero => intro src out h; omega
  | succ f ih =>
    intro src out h
    rw [parseLoop]
    cases hs : getStatementStart false src with
    | none => rfl
    | some cut =>
      have h1 := getStatementStart_some src false cut hs
      simp only
      cases hk : locateKeyName cut with
      | error e => rfl
      | ok kl =>
        obtain ⟨key, left⟩ := kl
        have h2 := locateKeyName_ok cut key left hk
        simp only
        cases hv : extractVarValue left out with
        | error e => rfl
        | ok vr =>
          obtain ⟨value, left2⟩ := vr
          obtain ⟨h3, h4⟩ := extractVarValue_ok left value left2 out hv
          simp only
          apply ih
          rcases h2 with h2 | ⟨h2, c0, tail, e, hk0, hs0⟩
          · omega
          · have := h4 c0 tail e hk0 hs0
            omega

/-- The parser always comes to an end: `parseBytes` never reports that the fuel
ran out. -/
theorem parseBytes_total (content : String) :
    (parseLoop ((replaceCRLF content.data).length + 1) (replaceCRLF content.data) []).isSome
      = true :=
  parseLoop_total _ _ _ (Nat.lt_succ_self _)

end godotenv

/-! ## Writing the credentials and reading them back -/

namespace Raw

theorem holds_rune (p : Char → Bool) : (holds p) ∘ GoChar.rune = p := rfl

theorem rdropWhile_map_rune (p : Char → Bool) (l : List Char) :
    (l.map GoChar.rune).rdropWhile (holds p) = (l.rdropWhile p).map GoChar.rune := by
  simp only [List.rdropWhile, ← List.map_reverse, List.dropWhile_map, holds_rune]

theorem trimSpace_text (a : String) : trimSpace (text a) = text (TrimSpace a) := by
  simp only [trimSpace, text, TrimSpace, trimSpaceChars, List.dropWhile_map, holds_rune,
    rdropWhile_map_rune]

theorem text_line (a : String) : text a ++ [GoChar.rune '\n'] = text ⟨a.data ++ ['\n']⟩ := by
  simp [text]

theorem trimSpace_line (a : String) :
    trimSpace (text a ++ [GoChar.rune '\n']) = text (TrimSpace a) := by
  rw [text_line, trimSpace_text, TrimSpace_line]

theorem mem_text (a : String) (c : Char) : GoChar.rune c ∈ text a ↔ c ∈ a.data := by
  simp [text]

theorem readString_text_line (a : String) (rest : List GoChar) (h : '\n' ∉ a.data) :
    readString (text a ++ GoChar.rune '\n' :: rest) = (text a ++ [GoChar.rune '\n'], rest) := by
  obtain ⟨l⟩ := a
  simp only [text] at *
  induction l with
  | nil => simp [readString, isChar]
  | cons x xs ih =>
    have hx : x ≠ '\n' := fun e => h (by simp [e])
    have hxs : '\n' ∉ xs := fun e => h (List.mem_cons_of_mem _ e)
    simp [readString, isChar, hx, ih hxs]

/-- The three lines the credential file is to hold, as raw text. -/
theorem setup_lines (sys : Sys) (w : World) (a b c : String) (rest : List GoChar)
    (hcr : sys.createErr = none) (hw : ∀ k, sys.writeErr k = none)
    (ha : '\n' ∉ a.data) (hb : '\n' ∉ b.data) (hc : '\n' ∉ c.data)
    (hin : w.stdin = text a ++ GoChar.rune '\n' :: (text b ++ GoChar.rune '\n' ::
      (text c ++ GoChar.rune '\n' :: rest))) :
    setup sys w = .ok
      { stdin := rest,
        stdout := w.stdout ++ "Enter LATITUDE: " ++ "Enter LONGITUDE: " ++ "Enter API_KEY: "
          ++ ".env file created successfully.\n",
        stderr := w.stderr,
        envFile := some (text "LATITUDE" ++ GoChar.rune '=' :: (text (TrimSpace a) ++
          GoChar.rune '\n' :: (text "LONGITUDE" ++ GoChar.rune '=' :: (text (TrimSpace b) ++
          GoChar.rune '\n' :: (text "API_KEY" ++ GoChar.rune '=' :: (text (TrimSpace c) ++
          [GoChar.rune '\n'])))))),
        environ := w.environ } := by
  simp only [setup, setupLoop, prompts, hcr, hw, hin, fileWrite, readString_text_line _ _ ha,
    readString_text_line _ _ hb, readString_text_line _ _ hc, trimSpace_line, Option.getD_some,
    List.nil_append, List.append_assoc, List.cons_append, String.append_assoc]
  simp

theorem isSpace_unicode (c : Char) (h : godotenv.isSpace c = true) :
    unicodeIsSpace c = true := by
  simp only [godotenv.isSpace, Bool.or_eq_true, beq_iff_eq] at h
  rcases h with ((((((h | h) | h) | h) | h) | h) | h) <;> subst h <;> decide

theorem isSpace_of_unicode_false (x : GoChar) (h : holds unicodeIsSpace x = false) :
    dotenv.isSpace x = false := by
  cases x with
  | stray b => rfl
  | rune c =>
    simp only [holds] at h
    cases hs : godotenv.isSpace c with
    | false => simpa [dotenv.isSpace, holds] using hs
    | true => rw [isSpace_unicode c hs] at h; exact absurd h (by decide)

theorem dropWhile_isSpace_head (l : List GoChar)
    (h : ∀ x, l.head? = some x → holds unicodeIsSpace x = false) :
    l.dropWhile dotenv.isSpace = l := by
  cases l with
  | nil => rfl
  | cons x xs =>
    have := isSpace_of_unicode_false x (h x rfl)
    simp [List.dropWhile_cons, this]

namespace dotenv

theorem replaceCRLF_id : ∀ l : List GoChar, GoChar.rune '\r' ∉ l → replaceCRLF l = l := by
  intro l
  induction l with
  | nil => intro _; rfl
  | cons x xs ih =>
    intro h
    have hx : isChar '\r' x = false := by
      cases x with
      | stray b => rfl
      | rune c =>
        have : c ≠ '\r' := fun e => h (by simp [e])
        simp [isChar, this]
    have hxs : GoChar.rune '\r' ∉ xs := fun e => h (List.mem_cons_of_mem _ e)
    cases xs with
    | nil => rfl
    | cons d rest =>
      unfold replaceCRLF
      simp [hx, ih hxs]

theorem take_drop_one (c : Char) (l : List GoChar) : takeOne c l ++ dropOne c l = l := by
  cases l with
  | nil => rfl
  | cons x xs =>
    by_cases h : isChar c x = true
    · simp [takeOne, dropOne, h]
    · simp [takeOne, dropOne, h]

theorem expands_dropOne (c : Char) (l : List GoChar) (h : expands l = false) :
    expands (dropOne c l) = false := by
  cases l with
  | nil => rfl
  | cons x xs =>
    have hx : expands xs = false := by
      simp only [expands, Bool.or_eq_false_iff] at h
      exact h.2
    by_cases hc : isChar c x = true
    · simpa [dropOne, hc] using hx
    · simpa [dropOne, hc] using h

/-- A value in which no `$` follows a backslash or opens a name is left as it
is by `expandVariables`. -/
theorem expandVariables_id (m : List (List GoChar × List GoChar)) :
    ∀ (fuel : Nat) (l : List GoChar), expands l = false → expandVariables m fuel l = l := by
  intro fuel
  induction fuel with
  | zero => intro l _; rfl
  | succ f ih =>
    intro l h
    cases l with
    | nil => rfl
    | cons x xs =>
      simp only [expands, Bool.or_eq_false_iff] at h
      obtain ⟨⟨h1, h2⟩, h3⟩ := h
      rw [expandVariables]
      rw [if_neg (by simp [h1])]
      by_cases hd : isChar '$' x = true
      · have ho : opensName xs = false := by simpa [hd] using h2
        have htake : List.takeWhile (holds godotenv.isVarChar) (dropOne '{' (dropOne '(' xs))
            = [] := by
          unfold opensName at ho
          cases hl : dropOne '{' (dropOne '(' xs) with
          | nil => rfl
          | cons y ys =>
            rw [hl] at ho
            simp only at ho
            simp [List.takeWhile_cons, ho]
        have hdrop : List.dropWhile (holds godotenv.isVarChar) (dropOne '{' (dropOne '(' xs))
            = dropOne '{' (dropOne '(' xs) := by
          have := List.takeWhile_append_dropWhile (holds godotenv.isVarChar)
            (dropOne '{' (dropOne '(' xs))
          rw [htake] at this
          simpa using this
        have hrest := ih _ (expands_dropOne '}' _ (expands_dropOne '{' _
          (expands_dropOne '(' _ h3)))
        simp only [hd, if_true, htake, hdrop, hrest]
        have e1 := take_drop_one '(' xs
        have e2 := take_drop_one '{' (dropOne '(' xs)
        have e3 := take_drop_one '}' (dropOne '{' (dropOne '(' xs))
        simp only [List.cons_append, List.append_assoc, e3, e2, e1]
      · simp only [hd, Bool.false_eq_true, if_false, ih xs h3]

theorem cutComment_some : ∀ (r t : List GoChar), cutComment r = some t →
    ∃ pre c p post, r = pre ++ c :: p :: post ∧ isChar '#' c = true ∧ isSpace p = true := by
  intro r
  induction r with
  | nil => intro t h; simp [cutComment] at h
  | cons c cs ih =>
    intro t h
    cases cs with
    | nil => simp [cutComment] at h
    | cons p rest =>
      simp only [cutComment] at h
      split at h
      · rename_i hcp
        simp only [Bool.and_eq_true] at hcp
        exact ⟨[], c, p, rest, rfl, hcp.1, hcp.2⟩
      · obtain ⟨pre, c1, p1, post, e, h1, h2⟩ := ih t h
        exact ⟨c :: pre, c1, p1, post, by rw [e]; rfl, h1, h2⟩

theorem blankHash_of_split : ∀ (pre : List GoChar) (p c : GoChar) (post : List GoChar),
    isSpace p = true → isChar '#' c = true → blankHash (pre ++ p :: c :: post) = true := by
  intro pre
  induction pre with
  | nil => intro p c post h1 h2; simp [blankHash, h1, h2]
  | cons x xs ih =>
    intro p c post h1 h2
    have := ih p c post h1 h2
    cases xs with
    | nil =>
      simp only [List.nil_append] at this
      show ((isSpace x && isChar '#' p) || blankHash (p :: c :: post)) = true
      rw [this]; simp
    | cons y ys =>
      simp only [List.cons_append] at this
      show ((isSpace x && isChar '#' y) || blankHash (y :: (ys ++ p :: c :: post))) = true
      rw [this]; simp

/-- Without a `#` right after a blank the backward scan finds no comment. -/
theorem cutComment_none (v : List GoChar) (h : blankHash v = false) :
    cutComment v.reverse = none := by
  cases hc : cutComment v.reverse with
  | none => rfl
  | some t =>
    obtain ⟨pre, c, p, post, e, h1, h2⟩ := cutComment_some _ _ hc
    have hv : v = post.reverse ++ p :: c :: pre.reverse := by
      have := congrArg List.reverse e
      simpa using this
    rw [hv, blankHash_of_split _ _ _ _ h2 h1] at h
    exact absurd h (by decide)

theorem keyLoop_key (src rest : List GoChar) :
    ∀ (K acc : List GoChar), (∀ x ∈ K, keyItem x) →
      keyLoop src acc (K ++ GoChar.rune '=' :: rest) = .ok (acc.reverse ++ K, rest) := by
  intro K
  induction K with
  | nil => intro acc _; simp [keyLoop, isChar]
  | cons k ks ih =>
    intro acc h
    obtain ⟨h1, h2, h3, _⟩ := h k (List.mem_cons_self _ _)
    have hks : ∀ x ∈ ks, keyItem x := fun x hx => h x (List.mem_cons_of_mem _ hx)
    simp [keyLoop, h1, h2, h3, ih (k :: acc) hks]

theorem locateKeyName_key (k0 : GoChar) (ks rest : List GoChar)
    (hK : ∀ x ∈ k0 :: ks, keyItem x) :
    locateKeyName (k0 :: ks ++ GoChar.rune '=' :: rest)
      = .ok (k0 :: ks, rest.dropWhile isSpace) := by
  have h0 := hK k0 (List.mem_cons_self _ _)
  have hsp : isSpace k0 = false := isSpace_of_unicode_false k0 h0.2.2.2.1
  have hd : (k0 :: ks ++ GoChar.rune '=' :: rest).dropWhile isSpace
      = k0 :: ks ++ GoChar.rune '=' :: rest := by
    simp [List.dropWhile_cons, hsp]
  have he : (text "export").isPrefixOf (k0 :: ks ++ GoChar.rune '=' :: rest) = false := by
    have h5 : isChar 'e' k0 = false := h0.2.2.2.2.2
    cases k0 with
    | stray b => simp [text, List.isPrefixOf]
    | rune c =>
      have : c ≠ 'e' := by simpa [isChar] using h5
      simp [text, List.isPrefixOf]
      intro e; exact absurd e.symm this
  have hloop := keyLoop_key (k0 :: ks ++ GoChar.rune '=' :: rest) rest (k0 :: ks) [] hK
  have hr : (k0 :: ks).rdropWhile (holds unicodeIsSpace) = k0 :: ks := by
    rw [List.rdropWhile_eq_self_iff]
    intro hl
    have := (hK _ (List.getLast_mem hl)).2.2.2.1
    simp [this]
  unfold locateKeyName
  simp only [hd, he]
  simp only [List.reverse_nil, List.nil_append, List.cons_append] at hloop
  simp [hloop, hr]

theorem extractVarValue_plain (v rest : List GoChar) (out : List (List GoChar × List GoChar))
    (hv : plainItems v) :
    extractVarValue (v ++ GoChar.rune '\n' :: rest) out = .ok (v, GoChar.rune '\n' :: rest) := by
  obtain ⟨hc, hq, hb, he, hh, hl⟩ := hv
  cases v with
  | nil =>
    simp [extractVarValue, isChar, godotenv.dq, godotenv.sq, isLineEnd, holds, godotenv.isLineEnd]
  | cons x xs =>
    have hline : ∀ y ∈ x :: xs, (fun c => !isLineEnd c) y = true := by
      intro y hy
      obtain ⟨c, rfl, h1, h2⟩ := hc y hy
      simp [isLineEnd, holds, godotenv.isLineEnd, h1, h2]
    have hlf : isLineEnd (GoChar.rune '\n') = true := by decide
    have htake : List.takeWhile (fun c => !isLineEnd c) (x :: xs ++ GoChar.rune '\n' :: rest)
        = x :: xs := by
      rw [List.takeWhile_append_of_pos hline]
      simp [hlf]
    have hdrop : List.dropWhile (fun c => !isLineEnd c) (x :: xs ++ GoChar.rune '\n' :: rest)
        = GoChar.rune '\n' :: rest := by
      rw [List.dropWhile_append_of_pos hline]
      simp [hlf]
    have hsan : (x :: xs).map sanitize = x :: xs := by
      have hid : ∀ y ∈ x :: xs, sanitize y = id y := by
        intro y hy
        obtain ⟨c, rfl, _⟩ := hc y hy
        rfl
      rw [List.map_congr_left hid, List.map_id]
    have hcut : cutComment (x :: xs).reverse = none := cutComment_none _ hb
    have hd : (x :: xs).dropWhile isSpace = x :: xs := dropWhile_isSpace_head _ hh
    have hr : (x :: xs).rdropWhile isSpace = x :: xs := by
      rw [List.rdropWhile_eq_self_iff]
      intro hne
      have := hl _ (List.getLast?_eq_getLast _ hne)
      simp [isSpace_of_unicode_false _ this]
    have hexp : ∀ n, expandVariables out n (x :: xs) = x :: xs :=
      fun n => expandVariables_id out n _ he
    have hq1 : (isChar godotenv.dq x || isChar godotenv.sq x) = false := hq
    simp only [List.cons_append] at htake hdrop
    simp only [List.reverse_cons] at hcut
    simp only [extractVarValue, List.cons_append, hq1, htake, hdrop, hsan]
    simp [hcut, hd, hr, hexp]

theorem plainItems_dropWhile (v rest : List GoChar) (hv : plainItems v) :
    (v ++ GoChar.rune '\n' :: rest).dropWhile isSpace = v ++ GoChar.rune '\n' :: rest := by
  cases v with
  | nil =>
    have : isSpace (GoChar.rune '\n') = false := by decide
    simp [List.dropWhile_cons, this]
  | cons x xs =>
    apply dropWhile_isSpace_head
    intro c hc
    exact hv.2.2.2.2.1 c (by simpa using hc)

theorem getStatementStart_key (k0 : GoChar) (s : List GoChar) (h : keyItem k0) :
    getStatementStart false (k0 :: s) = some (k0 :: s) := by
  simp [getStatementStart, h.2.2.2.1, h.2.2.2.2.1]

theorem getStatementStart_lf (s : List GoChar) :
    getStatementStart false (GoChar.rune '\n' :: s) = getStatementStart false s := by
  simp [getStatementStart, holds, unicodeIsSpace_lf]

/-- One round of `parseLoop` on a statement `KEY=value` that ends in a line
feed: the binding is recorded and the scan goes on at the line feed. -/
theorem parseLoop_statement (fuel : Nat) (src : List GoChar) (k0 : GoChar)
    (ks v rest : List GoChar) (out : List (List GoChar × List GoChar))
    (hs : getStatementStart false src
      = some (k0 :: ks ++ GoChar.rune '=' :: (v ++ GoChar.rune '\n' :: rest)))
    (hK : ∀ x ∈ k0 :: ks, keyItem x) (hv : plainItems v) :
    parseLoop (fuel + 1) src out
      = parseLoop fuel (GoChar.rune '\n' :: rest) (setVar (k0 :: ks) v out) := by
  rw [parseLoop]
  simp only [hs, locateKeyName_key k0 ks _ hK, plainItems_dropWhile v rest hv,
    extractVarValue_plain v rest out hv]

theorem parseLoop_first (fuel : Nat) (k0 : GoChar) (ks v rest : List GoChar)
    (out : List (List GoChar × List GoChar)) (hK : ∀ x ∈ k0 :: ks, keyItem x)
    (hv : plainItems v) :
    parseLoop (fuel + 1) (k0 :: ks ++ GoChar.rune '=' :: (v ++ GoChar.rune '\n' :: rest)) out
      = parseLoop fuel (GoChar.rune '\n' :: rest) (setVar (k0 :: ks) v out) :=
  parseLoop_statement fuel _ k0 ks v rest out
    (getStatementStart_key _ _ (hK _ (List.mem_cons_self _ _))) hK hv

theorem parseLoop_next (fuel : Nat) (k0 : GoChar) (ks v rest : List GoChar)
    (out : List (List GoChar × List GoChar)) (hK : ∀ x ∈ k0 :: ks, keyItem x)
    (hv : plainItems v) :
    parseLoop (fuel + 1)
        (GoChar.rune '\n' :: (k0 :: ks ++ GoChar.rune '=' :: (v ++ GoChar.rune '\n' :: rest))) out
      = parseLoop fuel (GoChar.rune '\n' :: rest) (setVar (k0 :: ks) v out) :=
  parseLoop_statement fuel _ k0 ks v rest out
    ((getStatementStart_lf _).trans (getStatementStart_key _ _ (hK _ (List.mem_cons_self _ _))))
    hK hv

theorem parseLoop_end (fuel : Nat) (out : List (List GoChar × List GoChar)) :
    parseLoop (fuel + 1) [GoChar.rune '\n'] out = some (.ok out) := by
  simp [parseLoop, getStatementStart, holds, unicodeIsSpace_lf]

theorem setVar_cons_ne (k v : List GoChar) (kv : List GoChar × List GoChar)
    (rest : List (List GoChar × List GoChar)) (h : (kv.1 == k) = false) :
    setVar k v (kv :: rest) = kv :: setVar k v rest := by
  simp [setVar, h]

/-- The parser reads the three lines `setup` writes back as the three
bindings, when the values are plain. -/
theorem parseBytes_credentialFile (a b c : List GoChar) (ha : plainItems a)
    (hb : plainItems b) (hc : plainItems c) :
    parseBytes (text "LATITUDE" ++ GoChar.rune '=' :: (a ++ GoChar.rune '\n' ::
        (text "LONGITUDE" ++ GoChar.rune '=' :: (b ++ GoChar.rune '\n' ::
          (text "API_KEY" ++ GoChar.rune '=' :: (c ++ [GoChar.rune '\n']))))))
      = .ok [(text "LATITUDE", a), (text "LONGITUDE", b), (text "API_KEY", c)] := by
  have t1 : text "LATITUDE" = GoChar.rune 'L' :: text "ATITUDE" := rfl
  have t2 : text "LONGITUDE" = GoChar.rune 'L' :: text "ONGITUDE" := rfl
  have t3 : text "API_KEY" = GoChar.rune 'A' :: text "PI_KEY" := rfl
  have hK1 : ∀ x ∈ GoChar.rune 'L' :: text "ATITUDE", keyItem x := by decide
  have hK2 : ∀ x ∈ GoChar.rune 'L' :: text "ONGITUDE", keyItem x := by decide
  have hK3 : ∀ x ∈ GoChar.rune 'A' :: text "PI_KEY", keyItem x := by decide
  have hno : ∀ v : List GoChar, plainItems v → GoChar.rune '\r' ∉ v := by
    intro v hv e
    obtain ⟨d, hd, h1, _⟩ := hv.1 _ e
    simp only [GoChar.rune.injEq] at hd
    exact h1 hd.symm
  generalize hsrc : text "LATITUDE" ++ GoChar.rune '=' :: (a ++ GoChar.rune '\n' ::
        (text "LONGITUDE" ++ GoChar.rune '=' :: (b ++ GoChar.rune '\n' ::
          (text "API_KEY" ++ GoChar.rune '=' :: (c ++ [GoChar.rune '\n']))))) = src
  have hcr : GoChar.rune '\r' ∉ src := by
    rw [← hsrc]
    simp only [List.mem_append, List.mem_cons, List.mem_singleton, not_or]
    exact ⟨by decide, by decide, hno a ha, by decide, by decide, by decide, hno b hb, by decide,
      by decide, by decide, hno c hc, by decide⟩
  have hlen : ∃ n, src.length + 1 = n + 1 + 1 + 1 + 1 := by
    refine ⟨src.length - 3, ?_⟩
    rw [← hsrc]
    simp only [List.length_append, List.length_cons]
    omega
  obtain ⟨n, hn⟩ := hlen
  unfold parseBytes
  simp only [replaceCRLF_id _ hcr, hn]
  rw [← hsrc, t1, t2, t3, parseLoop_first _ _ _ _ _ _ hK1 ha, parseLoop_next _ _ _ _ _ _ hK2 hb,
    parseLoop_next _ _ _ _ _ _ hK3 hc, parseLoop_end]
  have e1 : ((GoChar.rune 'L' :: text "ATITUDE") == (GoChar.rune 'L' :: text "ONGITUDE")) = false := by
    decide
  have e2 : ((GoChar.rune 'L' :: text "ATITUDE") == (GoChar.rune 'A' :: text "PI_KEY")) = false := by
    decide
  have e3 : ((GoChar.rune 'L' :: text "ONGITUDE") == (GoChar.rune 'A' :: text "PI_KEY")) = false := by
    decide
  have hset : setVar (GoChar.rune 'A' :: text "PI_KEY") c
      (setVar (GoChar.rune 'L' :: text "ONGITUDE") b
        (setVar (GoChar.rune 'L' :: text "ATITUDE") a []))
      = [(GoChar.rune 'L' :: text "ATITUDE", a), (GoChar.rune 'L' :: text "ONGITUDE", b),
          (GoChar.rune 'A' :: text "PI_KEY", c)] := by
    rw [show setVar (GoChar.rune 'L' :: text "ATITUDE") a []
        = [(GoChar.rune 'L' :: text "ATITUDE", a)] from rfl,
      setVar_cons_ne _ _ _ _ e1,
      show setVar (GoChar.rune 'L' :: text "ONGITUDE") b []
        = [(GoChar.rune 'L' :: text "ONGITUDE", b)] from rfl,
      setVar_cons_ne _ _ _ _ e2, setVar_cons_ne _ _ _ _ e3]
    rfl
  rw [hset]

end dotenv

theorem plainItems_TrimSpace (a : String) (hlf : '\n' ∉ a.data) (hs : safeValue (TrimSpace a)) :
    plainItems (text (TrimSpace a)) := by
  obtain ⟨h1, h2, h3, h4, _⟩ := hs
  obtain ⟨_, _, _, _, _, hh, hl⟩ := trimSpaceChars_spec a.data
  refine ⟨?_, h1, h2, h3, ?_, ?_⟩
  · intro x hx
    simp only [text, List.mem_map] at hx
    obtain ⟨c, hc, rfl⟩ := hx
    refine ⟨c, rfl, ?_, ?_⟩
    · rintro rfl; exact h4 hc
    · rintro rfl; exact hlf ((trimSpaceChars_sublist a.data).subset hc)
  · intro x hx
    simp only [text, List.head?_map, Option.map_eq_some'] at hx
    obtain ⟨c, hc, rfl⟩ := hx
    exact hh c hc
  · intro x hx
    simp only [text, List.getLast?_map, Option.map_eq_some'] at hx
    obtain ⟨c, hc, rfl⟩ := hx
    exact hl c hc

theorem no_nul_any (s : String) (h : safeValue s) :
    (text s).any (fun x => isChar (Char.ofNat 0) x) = false := by
  rw [List.any_eq_false]
  intro x hx
  simp only [text, List.mem_map] at hx
  obtain ⟨c, hc, rfl⟩ := hx
  have : c ≠ Char.ofNat 0 := fun e => h.2.2.2.2 (e ▸ hc)
  simpa [isChar] using this

theorem loadInto_credentials (environ : List (List GoChar × List GoChar)) (a b c : String)
    (ha : safeValue a) (hb : safeValue b) (hc : safeValue c) (henv : freshEnviron environ) :
    credentials { environ := (loadInto
        [(text "LATITUDE", text a), (text "LONGITUDE", text b), (text "API_KEY", text c)]
        environ) }
      = (text a, text b, text c) := by
  have h1 : environ.any (fun e => e.1 == text "LATITUDE") = false := by
    rw [List.any_eq_false]; intro kv hkv; simpa using (henv kv hkv).1
  have h2 : environ.any (fun e => e.1 == text "LONGITUDE") = false := by
    rw [List.any_eq_false]; intro kv hkv; simpa using (henv kv hkv).2.1
  have h3 : environ.any (fun e => e.1 == text "API_KEY") = false := by
    rw [List.any_eq_false]; intro kv hkv; simpa using (henv kv hkv).2.2
  have k1 : ((text "LATITUDE").isEmpty
      || (text "LATITUDE").any (fun x => isChar '=' x || isChar (Char.ofNat 0) x)) = false := by
    decide
  have k2 : ((text "LONGITUDE").isEmpty
      || (text "LONGITUDE").any (fun x => isChar '=' x || isChar (Char.ofNat 0) x)) = false := by
    decide
  have k3 : ((text "API_KEY").isEmpty
      || (text "API_KEY").any (fun x => isChar '=' x || isChar (Char.ofNat 0) x)) = false := by
    decide
  have n12 : (text "LATITUDE" != text "LONGITUDE") = true := by decide
  have n13 : (text "LATITUDE" != text "API_KEY") = true := by decide
  have n23 : (text "LONGITUDE" != text "API_KEY") = true := by decide
  have m21 : (text "LONGITUDE" == text "LATITUDE") = false := by decide
  have m31 : (text "API_KEY" == text "LATITUDE") = false := by decide
  have m32 : (text "API_KEY" == text "LONGITUDE") = false := by decide
  simp only [loadInto, List.foldl, h1, h2, h3, Setenv, k1, k2, k3, no_nul_any a ha,
    no_nul_any b hb, no_nul_any c hc, Bool.or_self, Bool.false_eq_true, if_false]
  simp [credentials, Getenv, List.filter_cons, List.find?_cons, n12, n13, n23, m21, m31, m32]

/-! ### The raw parser never runs out of fuel -/

namespace dotenv

theorem raw_getStatementStart_some : ∀ (src : List GoChar) (b : Bool) (cut : List GoChar),
    getStatementStart b src = some cut → cut.length ≤ src.length := by
  intro src
  induction src with
  | nil => intro b cut h; cases b <;> simp [getStatementStart] at h
  | cons c cs ih =>
    intro b cut h
    cases b with
    | false =>
      simp only [getStatementStart] at h
      split at h
      · exact Nat.le_succ_of_le (ih _ _ h)
      · split at h
        · exact Nat.le_succ_of_le (ih _ _ h)
        · simp only [Option.some.injEq] at h
          subst h
          exact Nat.le_refl _
    | true =>
      simp only [getStatementStart] at h
      split at h
      · exact Nat.le_succ_of_le (ih _ _ h)
      · exact Nat.le_succ_of_le (ih _ _ h)

theorem raw_keyLoop_ok (src : List GoChar) : ∀ (l acc key rest : List GoChar),
    keyLoop src acc l = .ok (key, rest) →
      rest.length < l.length ∨ (rest = src ∧ ∀ c ∈ l, keyItemOk c = true) := by
  intro l
  induction l with
  | nil =>
    intro acc key rest h
    simp only [keyLoop, Except.ok.injEq, Prod.mk.injEq] at h
    exact Or.inr ⟨h.2.symm, by simp⟩
  | cons c cs ih =>
    intro acc key rest h
    simp only [keyLoop] at h
    split at h
    · simp only [Except.ok.injEq, Prod.mk.injEq] at h
      exact Or.inl (by rw [← h.2]; simp)
    · split at h
      · rename_i hok
        rcases ih _ _ _ h with h1 | ⟨h1, h2⟩
        · exact Or.inl (by simp only [List.length_cons]; omega)
        · refine Or.inr ⟨h1, ?_⟩
          intro x hx
          rcases List.mem_cons.1 hx with rfl | hx
          · exact hok
          · exact h2 x hx
      · simp at h

theorem raw_dropWhile_isSpace_fixed (X : List GoChar) :
    (X.dropWhile isSpace).dropWhile isSpace = X.dropWhile isSpace ∧
      ∀ c0 tail, X.dropWhile isSpace = c0 :: tail → isSpace c0 = false := by
  induction X with
  | nil => simp
  | cons x xs ih =>
    by_cases hx : isSpace x = true
    · simpa [List.dropWhile_cons, hx] using ih
    · simp only [List.dropWhile_cons, hx, Bool.false_eq_true, if_false]
      refine ⟨trivial, ?_⟩
      intro c0 tail h
      simp only [List.cons.injEq] at h
      rw [← h.1]
      simpa using hx

/-- What `locateKeyName` leaves is shorter than its input, or it is the input
without leading blanks and starts with an element of a key. -/
theorem raw_locateKeyName_ok (cut key left : List GoChar)
    (h : locateKeyName cut = .ok (key, left)) :
    left.length < cut.length ∨ (left.length ≤ cut.length
      ∧ ∃ c0 tail, left = c0 :: tail ∧ keyItemOk c0 = true ∧ isSpace c0 = false) := by
  unfold locateKeyName at h
  simp only at h
  generalize hsrc : (if (text "export").isPrefixOf (cut.dropWhile isSpace) = true then
      if Option.map isSpace (List.drop 6 (cut.dropWhile isSpace)).head? = some true then
        List.dropWhile isSpace (List.drop 6 (cut.dropWhile isSpace))
      else cut.dropWhile isSpace
    else cut.dropWhile isSpace) = src at h
  have hX : ∃ X : List GoChar, src = X.dropWhile isSpace ∧ X.length ≤ cut.length := by
    have h1 : (cut.dropWhile isSpace).length ≤ cut.length := (List.dropWhile_sublist _).length_le
    rw [← hsrc]
    split
    · split
      · exact ⟨_, rfl, by simp only [List.length_drop]; omega⟩
      · exact ⟨cut, rfl, Nat.le_refl _⟩
    · exact ⟨cut, rfl, Nat.le_refl _⟩
  obtain ⟨X, hXs, hXl⟩ := hX
  have hsl : src.length ≤ cut.length := by
    rw [hXs]; exact Nat.le_trans (List.dropWhile_sublist _).length_le hXl
  cases hk : keyLoop src [] src with
  | error e => rw [hk] at h; simp at h
  | ok kr =>
    obtain ⟨k, r⟩ := kr
    rw [hk] at h
    simp only at h
    split at h
    · simp at h
    · rename_i hne
      simp only [Except.ok.injEq, Prod.mk.injEq] at h
      obtain ⟨_, hleft⟩ := h
      have hrl : (r.dropWhile isSpace).length ≤ r.length := (List.dropWhile_sublist _).length_le
      rcases raw_keyLoop_ok src src [] k r hk with h1 | ⟨h1, h2⟩
      · exact Or.inl (by rw [← hleft]; omega)
      · right
        have hfix := raw_dropWhile_isSpace_fixed X
        rw [← hXs] at hfix
        rw [h1, hfix.1] at hleft
        refine ⟨by rw [← hleft]; exact hsl, ?_⟩
        cases hs : src with
        | nil => rw [hs] at hne; simp at hne
        | cons c0 tail =>
          exact ⟨c0, tail, by rw [← hleft, hs], h2 c0 (by rw [hs]; simp), hfix.2 c0 tail hs⟩

theorem raw_findClose_shorter (q : GoChar) :
    ∀ (l : List GoChar) (prev : GoChar) (acc pre rest : List GoChar),
      findClose q prev acc l = some (pre, rest) → rest.length < l.length := by
  intro l
  induction l with
  | nil => intro prev acc pre rest h; simp [findClose] at h
  | cons c cs ih =>
    intro prev acc pre rest h
    simp only [findClose] at h
    split at h
    · simp only [Option.some.injEq, Prod.mk.injEq] at h
      rw [← h.2]; simp
    · have := ih _ _ _ _ h
      simp only [List.length_cons]; omega

theorem isLineEnd_cases (q : GoChar) (h : isLineEnd q = true) :
    q = GoChar.rune '\n' ∨ q = GoChar.rune '\r' := by
  cases q with
  | stray b => simp [isLineEnd, holds] at h
  | rune c =>
    simp only [isLineEnd, holds, godotenv.isLineEnd, Bool.or_eq_true, beq_iff_eq] at h
    rcases h with rfl | rfl
    · exact Or.inl rfl
    · exact Or.inr rfl

/-- What `extractVarValue` leaves is no longer than its input, and shorter
when the input starts with an element of a key that is no blank. -/
theorem raw_extractVarValue_ok (src value rest : List GoChar)
    (vars : List (List GoChar × List GoChar))
    (h : extractVarValue src vars = .ok (value, rest)) :
    rest.length ≤ src.length ∧ (∀ c0 tail, src = c0 :: tail → keyItemOk c0 = true →
      isSpace c0 = false → rest.length < src.length) := by
  cases src with
  | nil =>
    simp only [extractVarValue, Except.ok.injEq, Prod.mk.injEq] at h
    rw [← h.2]
    exact ⟨Nat.le_refl _, fun c0 tail e => by simp at e⟩
  | cons q tail =>
    simp only [extractVarValue] at h
    split at h
    · have hlt : rest.length < (q :: tail).length := by
        cases hf : findClose q q [q] tail with
        | none => rw [hf] at h; simp at h
        | some pr =>
          obtain ⟨pre, r⟩ := pr
          rw [hf] at h
          have hr := raw_findClose_shorter q tail q [q] pre r hf
          simp only at h
          split at h <;>
            (simp only [Except.ok.injEq, Prod.mk.injEq] at h
             rw [← h.2]; simp only [List.length_cons]; omega)
      exact ⟨Nat.le_of_lt hlt, fun _ _ _ _ _ => hlt⟩
    · have hle : (List.dropWhile (fun c => !isLineEnd c) (q :: tail)).length
          ≤ (q :: tail).length := (List.dropWhile_sublist _).length_le
      have hrest : rest = List.dropWhile (fun c => !isLineEnd c) (q :: tail) := by
        split at h <;>
          (simp only [Except.ok.injEq, Prod.mk.injEq] at h
           exact h.2.symm)
      refine ⟨by rw [hrest]; exact hle, ?_⟩
      intro c0 tl e hk hsp
      simp only [List.cons.injEq] at e
      obtain ⟨rfl, rfl⟩ := e
      have hq : isLineEnd q = false := by
        cases hq : isLineEnd q with
        | false => rfl
        | true =>
          rcases isLineEnd_cases q hq with rfl | rfl
          · exact absurd hk (by decide)
          · exact absurd hsp (by decide)
      have hle2 : (List.dropWhile (fun c => !isLineEnd c) tail).length ≤ tail.length :=
        (List.dropWhile_sublist _).length_le
      rw [hrest]
      simp only [List.dropWhile_cons, hq, Bool.not_false, if_true, List.length_cons]
      omega

/-- Fuel above the length of the input is never used up. -/
theorem raw_parseLoop_total :
    ∀ (fuel : Nat) (src : List GoChar) (out : List (List GoChar × List GoChar)),
      src.length < fuel → (parseLoop fuel src out).isSome = true := by
  intro fuel
  induction fuel with
  | zero => intro src out h; omega
  | succ f ih =>
    intro src out h
    rw [parseLoop]
    cases hs : getStatementStart false src with
    | none => rfl
    | some cut =>
      have h1 := raw_getStatementStart_some src false cut hs
      simp only
      cases hk : locateKeyName cut with
      | error e => rfl
      | ok kl =>
        obtain ⟨key, left⟩ := kl
        have h2 := raw_locateKeyName_ok cut key left hk
        simp only
        cases hv : extractVarValue left out with
        | error e => rfl
        | ok vr =>
          obtain ⟨value, left2⟩ := vr
          obtain ⟨h3, h4⟩ := raw_extractVarValue_ok left value left2 out hv
          simp only
          apply ih
          rcases h2 with h2 | ⟨h2, c0, tail, e, hk0, hs0⟩
          · omega
          · have := h4 c0 tail e hk0 hs0
            omega

/-- The raw parser always comes to an end. -/
theorem raw_parseBytes_total (content : List GoChar) :
    (parseLoop ((replaceCRLF content).length + 1) (replaceCRLF content) []).isSome = true :=
  raw_parseLoop_total _ _ _ (Nat.lt_succ_self _)

end dotenv

/-! ### On valid UTF-8 the raw parser is the parser above -/

namespace dotenv

theorem isChar_rune (c d : Char) : isChar c (GoChar.rune d) = (d == c) := rfl

theorem holds_rune_apply (p : Char → Bool) (c : Char) : holds p (GoChar.rune c) = p c := rfl

theorem rune_beq (c d : Char) : (GoChar.rune c == GoChar.rune d) = (c == d) := by
  by_cases h : c = d
  · subst h; simp
  · have : GoChar.rune c ≠ GoChar.rune d := fun e => h (GoChar.rune.inj e)
    simp [h, this]

theorem map_rune_inj : ∀ (a b : List Char),
    a.map GoChar.rune = b.map GoChar.rune → a = b := by
  intro a b h
  exact List.map_injective_iff.2 (fun _ _ e => GoChar.rune.inj e) h

theorem map_rune_beq (a b : List Char) :
    (a.map GoChar.rune == b.map GoChar.rune) = (a == b) := by
  by_cases h : a = b
  · subst h; simp
  · have : a.map GoChar.rune ≠ b.map GoChar.rune := fun e => h (map_rune_inj a b e)
    simp [h, this]

theorem replaceCRLF_map (l : List Char) :
    replaceCRLF (l.map GoChar.rune) = (godotenv.replaceCRLF l).map GoChar.rune := by
  induction l using godotenv.replaceCRLF.induct with
  | case1 c d rest h ih =>
    have hd : d = '\n' := by simp only [Bool.and_eq_true, beq_iff_eq] at h; exact h.2
    subst hd
    simp only [List.map_cons, replaceCRLF, godotenv.replaceCRLF, isChar_rune, h, if_true, ih]
  | case2 c d rest h ih =>
    simp only [List.map_cons] at ih
    simp [replaceCRLF, godotenv.replaceCRLF, isChar_rune, h, ih]
  | case3 l h =>
    cases l with
    | nil => rfl
    | cons c cs =>
      cases cs with
      | nil => rfl
      | cons d rest => exact absurd rfl (fun e => h c d rest e)

theorem getStatementStart_map (b : Bool) (l : List Char) :
    getStatementStart b (l.map GoChar.rune)
      = (godotenv.getStatementStart b l).map (List.map GoChar.rune) := by
  induction b, l using godotenv.getStatementStart.induct with
  | case1 x => cases x <;> rfl
  | case2 c cs h ih =>
    simp [getStatementStart, godotenv.getStatementStart, holds_rune_apply, h, ih]
  | case3 c cs h1 h2 ih =>
    simp [getStatementStart, godotenv.getStatementStart, holds_rune_apply, isChar_rune, h1, h2, ih]
  | case4 c cs h1 h2 =>
    simp [getStatementStart, godotenv.getStatementStart, holds_rune_apply, isChar_rune, h1, h2]
  | case5 c cs h ih =>
    simp [getStatementStart, godotenv.getStatementStart, isChar_rune, h, ih]
  | case6 c cs h ih =>
    simp [getStatementStart, godotenv.getStatementStart, isChar_rune, h, ih]

theorem keyLoop_map (src : List Char) : ∀ (l acc : List Char),
    keyLoop (src.map GoChar.rune) (acc.map GoChar.rune) (l.map GoChar.rune)
      = (godotenv.keyLoop src acc l).map
          (fun p => (p.1.map GoChar.rune, p.2.map GoChar.rune)) := by
  intro l
  induction l with
  | nil => intro acc; rfl
  | cons c cs ih =>
    intro acc
    by_cases h1 : (c == '=' || c == ':') = true
    · simp only [List.map_cons, keyLoop, godotenv.keyLoop, isChar_rune, h1, if_true, Except.map,
        List.map_reverse]
    · by_cases h2 : godotenv.keyCharOk c = true
      · have := ih (c :: acc)
        simp only [List.map_cons] at this
        simp only [List.map_cons, keyLoop, godotenv.keyLoop, isChar_rune, keyItemOk, h1, h2,
          if_true, if_false, this, Bool.false_eq_true]
      · simp only [List.map_cons, keyLoop, godotenv.keyLoop, isChar_rune, keyItemOk, h1, h2,
          if_false, Except.map, Bool.false_eq_true]

theorem isSpace_comp_rune : isSpace ∘ GoChar.rune = godotenv.isSpace := rfl

theorem isPrefixOf_map : ∀ (p l : List Char),
    (p.map GoChar.rune).isPrefixOf (l.map GoChar.rune) = p.isPrefixOf l := by
  intro p
  induction p with
  | nil => intro l; simp
  | cons x xs ih =>
    intro l
    cases l with
    | nil => simp
    | cons y ys => simp [List.isPrefixOf, rune_beq, ih]

theorem locateKeyName_core (src : List Char) :
    (match keyLoop (src.map GoChar.rune) [] (src.map GoChar.rune) with
      | Except.error e => (Except.error e : Except String (List GoChar × List GoChar))
      | Except.ok (key, rest) =>
        if (src.map GoChar.rune).isEmpty then Except.error "zero length string"
        else Except.ok (key.rdropWhile (holds unicodeIsSpace), rest.dropWhile isSpace))
      = Except.map (fun p => (p.1.map GoChar.rune, p.2.map GoChar.rune))
          (match godotenv.keyLoop src [] src with
          | Except.error e => (Except.error e : Except String (List Char × List Char))
          | Except.ok (key, rest) =>
            if src.isEmpty then Except.error "zero length string"
            else Except.ok (key.rdropWhile unicodeIsSpace, rest.dropWhile godotenv.isSpace)) := by
  have hk := keyLoop_map src src []
  simp only [List.map_nil] at hk
  rw [hk]
  cases godotenv.keyLoop src [] src with
  | error e => rfl
  | ok kr =>
    obtain ⟨k, r⟩ := kr
    cases src with
    | nil => rfl
    | cons x xs =>
      simp only [Except.map, List.map_cons, List.isEmpty_cons, Bool.false_eq_true, if_false,
        rdropWhile_map_rune, List.dropWhile_map, isSpace_comp_rune]

theorem locateKeyName_map (l : List Char) :
    locateKeyName (l.map GoChar.rune)
      = (godotenv.locateKeyName l).map (fun p => (p.1.map GoChar.rune, p.2.map GoChar.rune)) := by
  have hexp : text "export" = ['e', 'x', 'p', 'o', 'r', 't'].map GoChar.rune := rfl
  have hexp2 : "export".data = ['e', 'x', 'p', 'o', 'r', 't'] := rfl
  unfold locateKeyName godotenv.locateKeyName
  simp only [hexp, hexp2, List.dropWhile_map, isSpace_comp_rune, isPrefixOf_map, ← List.map_drop,
    List.head?_map, Option.map_map]
  by_cases h1 : ['e', 'x', 'p', 'o', 'r', 't'].isPrefixOf (List.dropWhile godotenv.isSpace l) = true
  · by_cases h2 : Option.map godotenv.isSpace
        (List.drop 6 (List.dropWhile godotenv.isSpace l)).head? = some true
    · simp only [h1, h2, if_true]
      exact locateKeyName_core _
    · simp only [h1, h2, if_true, if_false]
      exact locateKeyName_core _
  · simp only [h1, if_false, Bool.false_eq_true]
    exact locateKeyName_core _

theorem dropOne_map (c : Char) (l : List Char) :
    dropOne c (l.map GoChar.rune) = (godotenv.dropOne c l).map GoChar.rune := by
  cases l with
  | nil => rfl
  | cons x xs =>
    by_cases h : (x == c) = true
    · simp [dropOne, godotenv.dropOne, isChar_rune, h]
    · simp [dropOne, godotenv.dropOne, isChar_rune, h]

theorem takeOne_map (c : Char) (l : List Char) :
    takeOne c (l.map GoChar.rune) = (godotenv.takeOne c l).map GoChar.rune := by
  cases l with
  | nil => rfl
  | cons x xs =>
    by_cases h : (x == c) = true
    · simp [takeOne, godotenv.takeOne, isChar_rune, h]
    · simp [takeOne, godotenv.takeOne, isChar_rune, h]

theorem startsWith_map (c : Char) (l : List Char) :
    startsWith c (l.map GoChar.rune) = (l.head? == some c) := by
  cases l with
  | nil => rfl
  | cons x xs => simp [startsWith, isChar_rune]

theorem lookupVar_map (m : List (List Char × List Char)) (name : List Char) :
    lookupVar (m.map (fun kv => (kv.1.map GoChar.rune, kv.2.map GoChar.rune)))
        (name.map GoChar.rune)
      = (godotenv.lookupVar m name).map GoChar.rune := by
  induction m with
  | nil => rfl
  | cons kv rest ih =>
    unfold lookupVar godotenv.lookupVar at ih ⊢
    by_cases h : (kv.1 == name) = true
    · simp [List.find?_cons, map_rune_beq, h]
    · simp only [List.map_cons, List.find?_cons, map_rune_beq, h]
      exact ih

theorem isVarChar_comp_rune : holds godotenv.isVarChar ∘ GoChar.rune = godotenv.isVarChar := rfl

theorem expandVariables_map (m : List (List Char × List Char)) (fuel : Nat) (l : List Char) :
    expandVariables (m.map (fun kv => (kv.1.map GoChar.rune, kv.2.map GoChar.rune))) fuel
        (l.map GoChar.rune)
      = (godotenv.expandVariables m fuel l).map GoChar.rune := by
  induction fuel, l using godotenv.expandVariables.induct m with
  | case1 l => rfl
  | case2 n => rfl
  | case3 fuel c cs h l1 l2 l3 ih =>
    simp only [l1, l2, l3] at ih
    simp only [List.map_cons, expandVariables, godotenv.expandVariables, isChar_rune,
      startsWith_map, h, if_true, ← List.map_tail, dropOne_map, takeOne_map,
      List.dropWhile_map, List.takeWhile_map, isVarChar_comp_rune, ih, List.map_append]
  | case4 fuel c cs h1 h2 l1 l2 l3 ih =>
    simp only [l1, l2, l3] at ih
    have hc : c = '$' := by simpa using h2
    subst hc
    simp only [List.map_cons, expandVariables, godotenv.expandVariables, isChar_rune,
      startsWith_map, h1, h2, if_true, if_false, dropOne_map, takeOne_map,
      List.dropWhile_map, List.takeWhile_map, isVarChar_comp_rune, ih, List.map_append,
      List.map_eq_nil_iff, Bool.false_eq_true]
    split
    · simp only [List.map_cons, List.map_append, List.cons_append]
    · simp only [lookupVar_map, List.map_append]
  | case5 fuel c cs h1 h2 ih =>
    simp only [List.map_cons, expandVariables, godotenv.expandVariables, isChar_rune,
      startsWith_map, h1, h2, if_false, ih, Bool.false_eq_true]

theorem expandNewlines_map (l : List Char) :
    expandNewlines (l.map GoChar.rune) = (godotenv.expandNewlines l).map GoChar.rune := by
  induction l using godotenv.expandNewlines.induct with
  | case1 c d rest h ih =>
    simp only [List.map_cons, expandNewlines, godotenv.expandNewlines, isChar_rune] at ih ⊢
    have h' : (c == godotenv.bs && !(d == '\n')) = true := by simpa using h
    simp only [h, h', if_true, ih]
    split <;> [skip; split] <;> simp
  | case2 c d rest h ih =>
    simp only [List.map_cons] at ih
    have h' : ¬ (c == godotenv.bs && !(d == '\n')) = true := by simpa using h
    simp only [List.map_cons, expandNewlines, godotenv.expandNewlines, isChar_rune, h, h',
      if_false, ih, Bool.false_eq_true]
  | case3 l h =>
    cases l with
    | nil => rfl
    | cons c cs =>
      cases cs with
      | nil => rfl
      | cons d rest => exact absurd rfl (fun e => h c d rest e)

theorem unescapeChars_map (l : List Char) :
    unescapeChars (l.map GoChar.rune) = (godotenv.unescapeChars l).map GoChar.rune := by
  induction l using godotenv.unescapeChars.induct with
  | case1 c d rest h ih =>
    have h' : (c == godotenv.bs && !(d == '$')) = true := by simpa using h
    simp only [List.map_cons, unescapeChars, godotenv.unescapeChars, isChar_rune, h, h', if_true,
      ih]
  | case2 c d rest h ih =>
    simp only [List.map_cons] at ih
    have h' : ¬ (c == godotenv.bs && !(d == '$')) = true := by simpa using h
    simp only [List.map_cons, unescapeChars, godotenv.unescapeChars, isChar_rune, h, h',
      if_false, ih, Bool.false_eq_true]
  | case3 l h =>
    cases l with
    | nil => rfl
    | cons c cs =>
      cases cs with
      | nil => rfl
      | cons d rest => exact absurd rfl (fun e => h c d rest e)

theorem expandEscapes_map (l : List Char) :
    expandEscapes (l.map GoChar.rune) = (godotenv.expandEscapes l).map GoChar.rune := by
  simp only [expandEscapes, godotenv.expandEscapes, expandNewlines_map, unescapeChars_map]

theorem cutComment_map (l : List Char) :
    cutComment (l.map GoChar.rune) = (godotenv.cutComment l).map (List.map GoChar.rune) := by
  induction l using godotenv.cutComment.induct with
  | case1 c d rest h =>
    simp only [List.map_cons, cutComment, godotenv.cutComment, isChar_rune, isSpace,
      holds_rune_apply, h, if_true, Option.map_some']
  | case2 c d rest h ih =>
    simp only [List.map_cons] at ih
    simp only [List.map_cons, cutComment, godotenv.cutComment, isChar_rune, isSpace,
      holds_rune_apply, h, if_false, ih, Bool.false_eq_true]
  | case3 l h =>
    cases l with
    | nil => rfl
    | cons c cs =>
      cases cs with
      | nil => rfl
      | cons d rest => exact absurd rfl (fun e => h c d rest e)

theorem findClose_map (q : Char) : ∀ (l : List Char) (prev : Char) (acc : List Char),
    findClose (GoChar.rune q) (GoChar.rune prev) (acc.map GoChar.rune) (l.map GoChar.rune)
      = (godotenv.findClose q prev acc l).map
          (fun p => (p.1.map GoChar.rune, p.2.map GoChar.rune)) := by
  intro l
  induction l with
  | nil => intro prev acc; rfl
  | cons c cs ih =>
    intro prev acc
    have := ih c (c :: acc)
    simp only [List.map_cons] at this
    have hb : (!(prev == godotenv.bs)) = (prev != godotenv.bs) := rfl
    by_cases h : (c == q && prev != godotenv.bs) = true
    · simp only [List.map_cons, findClose, godotenv.findClose, rune_beq, isChar_rune, hb, h,
        if_true, Option.map_some', List.map_reverse]
    · simp only [List.map_cons, findClose, godotenv.findClose, rune_beq, isChar_rune, hb, h,
        if_false, this, Bool.false_eq_true]

theorem rdropWhile_map_fun (f : Char → GoChar) (p : GoChar → Bool) (l : List Char) :
    (l.map f).rdropWhile p = (l.rdropWhile (p ∘ f)).map f := by
  simp only [List.rdropWhile, ← List.map_reverse, List.dropWhile_map]

theorem beq_rune_comp (q : Char) :
    (fun x => x == GoChar.rune q) ∘ GoChar.rune = (fun c => c == q) := by
  funext c
  exact rune_beq c q

theorem notLineEnd_comp :
    (fun c => !isLineEnd c) ∘ GoChar.rune = (fun c => !godotenv.isLineEnd c) := rfl

theorem sanitize_map (l : List Char) :
    (l.map GoChar.rune).map sanitize = l.map GoChar.rune := by
  rw [List.map_map]
  rfl

theorem extractVarValue_map (src : List Char) (vars : List (List Char × List Char)) :
    extractVarValue (src.map GoChar.rune)
        (vars.map (fun kv => (kv.1.map GoChar.rune, kv.2.map GoChar.rune)))
      = Except.map (fun p => (p.1.map GoChar.rune, p.2.map GoChar.rune))
          (godotenv.extractVarValue src vars) := by
  cases src with
  | nil => rfl
  | cons q tail =>
    by_cases hq : (q == godotenv.dq || q == godotenv.sq) = true
    · have hf := findClose_map q tail q [q]
      simp only [List.map_cons, List.map_nil] at hf
      simp only [List.map_cons, extractVarValue, godotenv.extractVarValue, isChar_rune, hq,
        if_true, hf]
      cases godotenv.findClose q q [q] tail with
      | none => rfl
      | some pr =>
        obtain ⟨pre, rest⟩ := pr
        simp only [Option.map_some', rdropWhile_map_fun, List.dropWhile_map, beq_rune_comp,
          List.length_map, expandEscapes_map, expandVariables_map]
        split <;> rfl
    · have ht : List.takeWhile (fun c => !isLineEnd c) (GoChar.rune q :: List.map GoChar.rune tail)
          = (List.takeWhile (fun c => !godotenv.isLineEnd c) (q :: tail)).map GoChar.rune := by
        rw [← List.map_cons, List.takeWhile_map, notLineEnd_comp]
      have hd : List.dropWhile (fun c => !isLineEnd c) (GoChar.rune q :: List.map GoChar.rune tail)
          = (List.dropWhile (fun c => !godotenv.isLineEnd c) (q :: tail)).map GoChar.rune := by
        rw [← List.map_cons, List.dropWhile_map, notLineEnd_comp]
      simp only [List.map_cons, extractVarValue, godotenv.extractVarValue, isChar_rune, hq,
        if_false, Bool.false_eq_true]
      rw [ht, hd, sanitize_map]
      generalize List.takeWhile (fun c => !godotenv.isLineEnd c) (q :: tail) = line
      generalize List.dropWhile (fun c => !godotenv.isLineEnd c) (q :: tail) = rest
      cases line with
      | nil => rfl
      | cons x xs =>
        simp only [List.map_cons, List.isEmpty_cons, Bool.false_eq_true, if_false]
        rw [← List.map_cons, ← List.map_reverse, cutComment_map]
        cases godotenv.cutComment (x :: xs).reverse with
        | none =>
          simp only [Option.map_none', List.dropWhile_map, isSpace_comp_rune, isSpace, holds_rune,
            rdropWhile_map_rune, List.length_map, expandVariables_map, Except.map]
        | some r =>
          simp only [Option.map_some', ← List.map_reverse, List.dropWhile_map, isSpace_comp_rune,
            isSpace, holds_rune, rdropWhile_map_rune, List.length_map, expandVariables_map, Except.map]

theorem setVar_map (k v : List Char) (m : List (List Char × List Char)) :
    setVar (k.map GoChar.rune) (v.map GoChar.rune)
        (m.map (fun kv => (kv.1.map GoChar.rune, kv.2.map GoChar.rune)))
      = (godotenv.setVar k v m).map (fun kv => (kv.1.map GoChar.rune, kv.2.map GoChar.rune)) := by
  induction m with
  | nil => rfl
  | cons kv rest ih =>
    by_cases h : (kv.1 == k) = true
    · simp only [List.map_cons, setVar, godotenv.setVar, map_rune_beq, h, if_true]
    · simp only [List.map_cons, setVar, godotenv.setVar, map_rune_beq, h, if_false, ih,
        Bool.false_eq_true]

theorem parseLoop_map : ∀ (fuel : Nat) (src : List Char) (out : List (List Char × List Char)),
    parseLoop fuel (src.map GoChar.rune)
        (out.map (fun kv => (kv.1.map GoChar.rune, kv.2.map GoChar.rune)))
      = (godotenv.parseLoop fuel src out).map (Except.map
          (List.map (fun kv => (kv.1.map GoChar.rune, kv.2.map GoChar.rune)))) := by
  intro fuel
  induction fuel with
  | zero => intro src out; rfl
  | succ f ih =>
    intro src out
    rw [parseLoop, godotenv.parseLoop, getStatementStart_map]
    cases godotenv.getStatementStart false src with
    | none => rfl
    | some cut =>
      simp only [Option.map_some', locateKeyName_map]
      cases godotenv.locateKeyName cut with
      | error e => rfl
      | ok kl =>
        obtain ⟨key, left⟩ := kl
        simp only [Except.map, extractVarValue_map]
        cases godotenv.extractVarValue left out with
        | error e => rfl
        | ok vr =>
          obtain ⟨value, left2⟩ := vr
          simp only [Except.map, setVar_map, ih]

/-- On a file that is valid UTF-8 the raw parser returns what the parser of
`godotenv.Load` returns. -/
theorem parseBytes_text (content : String) :
    parseBytes (text content)
      = Except.map (List.map (fun kv => (text kv.1, text kv.2))) (godotenv.parseBytes content) := by
  have h := parseLoop_map ((godotenv.replaceCRLF content.data).length + 1)
    (godotenv.replaceCRLF content.data) []
  simp only [List.map_nil] at h
  unfold parseBytes godotenv.parseBytes
  simp only [text, replaceCRLF_map, List.length_map, h]
  cases godotenv.parseLoop ((godotenv.replaceCRLF content.data).length + 1)
      (godotenv.replaceCRLF content.data) [] with
  | none => rfl
  | some r =>
    cases r with
    | error e => rfl
    | ok out =>
      simp only [Option.map_some', Except.map, List.map_map]
      rfl

end dotenv

/-! ### On valid UTF-8 the raw flow is the flow of `setup` and `godotenv.Load` -/

theorem text_append (a b : String) : text (a ++ b) = text a ++ text b := by
  simp [text, String.data_append]

theorem text_inj (a b : String) (h : text a = text b) : a = b :=
  String.ext (dotenv.map_rune_inj _ _ h)

theorem text_beq (a b : String) : (text a == text b) = (a == b) := by
  by_cases h : a = b
  · subst h; simp
  · have : text a ≠ text b := fun e => h (text_inj a b e)
    simp [h, this]

theorem readString_map : ∀ l : List Char,
    readString (l.map GoChar.rune)
      = ((Wxcli.readString '\n' l).1.map GoChar.rune, (Wxcli.readString '\n' l).2.map GoChar.rune) := by
  intro l
  induction l with
  | nil => rfl
  | cons c cs ih =>
    by_cases h : c = '\n'
    · subst h
      simp [readString, Wxcli.readString, isChar]
    · simp [readString, Wxcli.readString, isChar, h, ih]

theorem trimSpace_map (l : List Char) :
    trimSpace (l.map GoChar.rune) = text (TrimSpace ⟨l⟩) :=
  trimSpace_text ⟨l⟩

theorem setupLoop_text (sys : Sys) : ∀ (keys : List String) (k : Nat) (w : Wxcli.World),
    setupLoop sys keys k (ofWorld w) = ofOutcome (Wxcli.setupLoop sys keys k w) := by
  intro keys
  induction keys with
  | nil => intro k w; rfl
  | cons key rest ih =>
    intro k w
    have hdata : text key ++ GoChar.rune '=' ::
        (text (TrimSpace ⟨(Wxcli.readString '\n' w.stdin).1⟩) ++ [GoChar.rune '\n'])
        = text (key ++ "=" ++ TrimSpace ⟨(Wxcli.readString '\n' w.stdin).1⟩ ++ "\n") := by
      simp [text, String.data_append]
    rw [setupLoop, Wxcli.setupLoop]
    simp only [ofWorld, readString_map, trimSpace_map, print, hdata]
    cases sys.writeErr k with
    | none =>
      simp only
      rw [← ih]
      congr 1
      cases w.envFile <;> simp [ofWorld, fileWrite, Wxcli.fileWrite, record, text_append]
    | some ne =>
      obtain ⟨n, err⟩ := ne
      simp only [logFatal, ofOutcome]
      congr 1
      cases w.envFile <;>
        simp [ofWorld, fileWrite, Wxcli.fileWrite, record, text_append, text, List.map_take]

/-- On a world whose texts are valid UTF-8 the raw `setup` does what `setup`
does. -/
theorem setup_text (sys : Sys) (w : Wxcli.World) :
    setup sys (ofWorld w) = ofOutcome (Wxcli.setup sys w) := by
  unfold setup Wxcli.setup
  cases sys.createErr with
  | some err => simp [ofOutcome, logFatal, ofWorld, record]
  | none =>
    simp only
    have h := setupLoop_text sys prompts 0
      (record (.fileCreate ".env" true) { w with envFile := some "" })
    have hw : ofWorld (record (.fileCreate ".env" true) { w with envFile := some "" })
        = { ofWorld w with envFile := some [] } := by
      simp [ofWorld, record, text]
    rw [hw] at h
    rw [h]
    cases Wxcli.setupLoop sys prompts 0
        (record (.fileCreate ".env" true) { w with envFile := some "" }) with
    | ok u w2 => simp [ofOutcome, ofWorld, record, println, print]
    | exit code w2 => rfl
    | panic msg w2 => rfl

theorem Getenv_text (environ : List (String × String)) (key : String) :
    Getenv (environ.map (fun kv => (text kv.1, text kv.2))) (text key)
      = text (Wxcli.Getenv environ key) := by
  unfold Getenv Wxcli.Getenv
  induction environ with
  | nil => rfl
  | cons kv rest ih =>
    by_cases h : (kv.1 == key) = true
    · simp [List.find?_cons, text_beq, h]
    · simp only [List.map_cons, List.find?_cons, text_beq, h]
      exact ih

theorem any_text (f : GoChar → Bool) (p : Char → Bool) (hf : ∀ c, f (GoChar.rune c) = p c)
    (s : String) : (text s).any f = s.data.any p := by
  obtain ⟨l⟩ := s
  simp only [text]
  induction l with
  | nil => rfl
  | cons c cs ih => simp only [List.map_cons, List.any_cons, hf, ih]

theorem Setenv_text (key value : String) (environ : List (String × String)) :
    Setenv (text key) (text value) (environ.map (fun kv => (text kv.1, text kv.2)))
      = (Wxcli.Setenv key value environ).map (fun kv => (text kv.1, text kv.2)) := by
  have h1 : (text key).isEmpty = key.data.isEmpty := by
    cases hk : key.data <;> simp [text, hk]
  have h2 : (text key).any (fun x => isChar '=' x || isChar (Char.ofNat 0) x)
      = key.data.any (fun c => c == '=' || c == Char.ofNat 0) :=
    any_text _ _ (fun _ => rfl) key
  have h3 : (text value).any (fun x => isChar (Char.ofNat 0) x)
      = value.data.any (fun c => c == Char.ofNat 0) :=
    any_text _ _ (fun _ => rfl) value
  have h4 : (fun kv : List GoChar × List GoChar => kv.1 != text key)
      ∘ (fun kv : String × String => (text kv.1, text kv.2))
      = (fun kv : String × String => kv.1 != key) := by
    funext kv
    simp only [Function.comp, bne, text_beq]
  unfold Setenv Wxcli.Setenv
  rw [h1, h2, h3]
  split
  · rfl
  · simp only [List.map_cons, List.filter_map, h4]

theorem held_text (environ : List (String × String)) (key : String) :
    (environ.map (fun kv => (text kv.1, text kv.2))).any (fun e => e.1 == text key)
      = environ.any (fun e => e.1 == key) := by
  induction environ with
  | nil => rfl
  | cons kv rest ih => simp only [List.map_cons, List.any_cons, text_beq, ih]

theorem loadInto_text (environ : List (String × String)) :
    ∀ (envMap env : List (String × String)),
      (envMap.map (fun kv => (text kv.1, text kv.2))).foldl
          (fun e kv => if (environ.map (fun kv => (text kv.1, text kv.2))).any
              (fun x => x.1 == kv.1) then e else Setenv kv.1 kv.2 e)
          (env.map (fun kv => (text kv.1, text kv.2)))
        = (envMap.foldl (fun e kv => if environ.any (fun x => x.1 == kv.1) then e
            else Wxcli.Setenv kv.1 kv.2 e) env).map (fun kv => (text kv.1, text kv.2)) := by
  intro envMap
  induction envMap with
  | nil => intro env; rfl
  | cons kv rest ih =>
    intro env
    simp only [List.map_cons, List.foldl_cons, held_text]
    by_cases h : environ.any (fun x => x.1 == kv.1) = true
    · simp only [h, if_true, ih]
    · simp only [h, if_false, Setenv_text, ih, Bool.false_eq_true]

/-- On a world whose texts are valid UTF-8 the raw `Load` does what
`godotenv.Load` does. -/
theorem Load_text (sys : Sys) (w : Wxcli.World) :
    Load sys (ofWorld w) = (ofWorld (godotenv.Load sys w).1, (godotenv.Load sys w).2) := by
  unfold Load godotenv.Load
  cases sys.loadErr with
  | some e => simp [ofWorld, record]
  | none =>
    cases hf : w.envFile with
    | none => simp [ofWorld, record, hf]
    | some content =>
      simp only [ofWorld, record, hf, Option.map_some', dotenv.parseBytes_text]
      cases godotenv.parseBytes content with
      | error e => simp [Except.map]
      | ok envMap =>
        have := loadInto_text w.environ envMap w.environ
        simp only [Except.map, loadInto, Wxcli.loadInto, this]
        rfl

/-- On valid UTF-8 the raw flow yields the values that `setup` followed by
`godotenv.Load` and `os.Getenv` yield. -/
theorem setupThenLoad_text (sys : Sys) (w : Wxcli.World) :
    setupThenLoad sys (ofWorld w)
      = (match Wxcli.setup sys w with
          | .ok _ w1 =>
            match godotenv.Load sys w1 with
            | (w2, none) => some (text (Wxcli.Getenv w2.environ "LATITUDE"),
                text (Wxcli.Getenv w2.environ "LONGITUDE"), text (Wxcli.Getenv w2.environ "API_KEY"))
            | (_, some _) => none
          | _ => none) := by
  unfold setupThenLoad
  rw [setup_text]
  cases Wxcli.setup sys w with
  | ok u w1 =>
    simp only [ofOutcome, Load_text]
    rcases hL : godotenv.Load sys w1 with ⟨w2, err⟩
    cases err with
    | none => simp only [credentials, ofWorld, Getenv_text]
    | some e => rfl
  | exit code w1 => rfl
  | panic msg w1 => rfl

end Raw

/-- C6 (as stated, refuted): runs in which the values loaded are not the
values entered.  A latitude the environment already holds is not replaced; a
value loses a `#` that follows a blank, and what comes after it, as a
comment; a value in double or single quotes loses them; `$A` is replaced by
the (missing) variable and `\$` loses the backslash; after a carriage return
inside a value the file no longer parses and the load fails; a value with
NUL is refused by `os.Setenv`; a byte that is not valid UTF-8 comes back as
U+FFFD. -/
theorem C6_roundtrip_counterexample :
    (Raw.setupThenLoad {}
          { stdin := Raw.text "1\n2\n3\n", environ := [(Raw.text "LATITUDE", Raw.text "0")] }
        = some (Raw.text "0", Raw.text "2", Raw.text "3")
      ∧ (TrimSpace "1", TrimSpace "2", TrimSpace "3") = ("1", "2", "3"))
    ∧ (Raw.setupThenLoad {} { stdin := Raw.text "a #b\n\"x\"\n'q'\n" }
        = some (Raw.text "a", Raw.text "x", Raw.text "q")
      ∧ (TrimSpace "a #b", TrimSpace "\"x\"", TrimSpace "'q'") = ("a #b", "\"x\"", "'q'"))
    ∧ (Raw.setupThenLoad {} { stdin := Raw.text "x$A\n\\$5\n3\n" }
        = some (Raw.text "x", Raw.text "$5", Raw.text "3")
      ∧ (TrimSpace "x$A", TrimSpace "\\$5") = ("x$A", "\\$5"))
    ∧ (Raw.setupThenLoad {} { stdin := Raw.text "a\rb\n2\n3\n" } = none
      ∧ TrimSpace "a\rb" = "a\rb")
    ∧ (Raw.setupThenLoad {}
          { stdin := Raw.GoChar.rune 'a' :: Raw.GoChar.rune (Char.ofNat 0)
              :: Raw.text "\n2\n3\n" }
        = some ([], Raw.text "2", Raw.text "3"))
    ∧ (Raw.setupThenLoad {} { stdin := Raw.GoChar.stray 255 :: Raw.text "\n2\n3\n" }
        = some ([Raw.GoChar.rune (Char.ofNat 0xFFFD)], Raw.text "2", Raw.text "3")
      ∧ Raw.trimSpace [Raw.GoChar.stray 255] = [Raw.GoChar.stray 255]) := by
  refine ⟨⟨by decide, by decide⟩, ⟨by decide, by decide⟩, ⟨by decide, by decide⟩,
    ⟨by decide, by decide⟩, by decide, ⟨by decide, by decide⟩⟩

/-- C6 (amended): when the three lines `a`, `b`, `c` typed are valid UTF-8, no
I/O error occurs, the environment of the loading process holds none of
`LATITUDE`, `LONGITUDE`, `API_KEY`, and each trimmed value is safe (it does
not begin with a quote, no `#` in it follows a blank, no `$` in it follows a
backslash or opens a name, and it holds no carriage return and no NUL), then
loading right after `setup` yields exactly the three trimmed values.  So `=`,
inner blanks, a `#` that follows no blank, a quote that is not in front and a
`$` that opens no name are kept. -/
theorem C6_roundtrip_plain (sys : Sys) (w : Raw.World) (a b c : String)
    (rest : List Raw.GoChar)
    (hcr : sys.createErr = none) (hw : ∀ k, sys.writeErr k = none) (hl : sys.loadErr = none)
    (ha : '\n' ∉ a.data) (hb : '\n' ∉ b.data) (hc : '\n' ∉ c.data)
    (hin : w.stdin = Raw.text a ++ Raw.GoChar.rune '\n' :: (Raw.text b ++ Raw.GoChar.rune '\n' ::
      (Raw.text c ++ Raw.GoChar.rune '\n' :: rest)))
    (hsa : Raw.safeValue (TrimSpace a)) (hsb : Raw.safeValue (TrimSpace b))
    (hsc : Raw.safeValue (TrimSpace c)) (henv : Raw.freshEnviron w.environ) :
    Raw.setupThenLoad sys w
      = some (Raw.text (TrimSpace a), Raw.text (TrimSpace b), Raw.text (TrimSpace c)) := by
  have hparse := Raw.dotenv.parseBytes_credentialFile _ _ _
    (Raw.plainItems_TrimSpace a ha hsa) (Raw.plainItems_TrimSpace b hb hsb)
    (Raw.plainItems_TrimSpace c hc hsc)
  have hcred := Raw.loadInto_credentials w.environ _ _ _ hsa hsb hsc henv
  unfold Raw.setupThenLoad
  rw [Raw.setup_lines sys w a b c rest hcr hw ha hb hc hin]
  simp only [Raw.Load, hl, hparse]
  rw [← hcred]
  rfl

/-- Values with an inner blank, `=`, a `#` after a letter, an apostrophe
inside and a closing `$` come back unchanged. -/
theorem C6_roundtrip_plain_witness :
    Raw.setupThenLoad {}
        { stdin := Raw.text " 42.36 \nit's a#b\nk e=y$\n",
          envFile := some (Raw.text "LATITUDE=0\n"),
          environ := [(Raw.text "HOME", Raw.text "/root")] }
      = some (Raw.text "42.36", Raw.text "it's a#b", Raw.text "k e=y$") :=
  (C6_roundtrip_plain {}
      { stdin := Raw.text " 42.36 \nit's a#b\nk e=y$\n",
        envFile := some (Raw.text "LATITUDE=0\n"),
        environ := [(Raw.text "HOME", Raw.text "/root")] }
      " 42.36 " "it's a#b" "k e=y$" [] rfl (fun _ => rfl) rfl (by decide) (by decide) (by decide)
      rfl (by decide) (by decide) (by decide) (by decide)).trans (by decide)

end Wxcli
